import Mathlib

/-!
Verification of the layout/conflict core of the `latex_diagrams` repository.

The Python sources are shallowly embedded: Python dicts (which preserve
insertion order) become association lists `List (String × α)` with
order-preserving update, floats become `ℚ`, and fallible code returns
`Option`/`Except`.  Each definition mirrors one Python function; the file
then proves or refutes the frozen claims about them.
-/

namespace LatexDiagrams

/-- Lookup in an association list (first binding wins), mirroring Python
dict lookup. -/
def alookup {α : Type} : List (String × α) → String → Option α
  | [], _ => none
  | (k, v) :: rest, key => if k = key then some v else alookup rest key

/-- Update of an association list mirroring Python `d[k] = v`: an existing
key keeps its position, a new key is appended at the end. -/
def aset {α : Type} : List (String × α) → String → α → List (String × α)
  | [], key, val => [(key, val)]
  | (k, v) :: rest, key, val =>
      if k = key then (k, val) :: rest else (k, v) :: aset rest key val

/-! ### spacing_constants.py -/

/-- Constant `WITHIN_GROUP_SPACING = 2.5` from `spacing_constants.py`. -/
def WITHIN_GROUP_SPACING : ℚ := 5/2

/-- Constant `BETWEEN_GROUP_SPACING = 2.6` from `spacing_constants.py`. -/
def BETWEEN_GROUP_SPACING : ℚ := 13/5

/-- Constant `TEXT_WIDTH = 0.64` from `spacing_constants.py`. -/
def TEXT_WIDTH : ℚ := 16/25

/-- Constant `TEXT_HEIGHT = 0.3` from `spacing_constants.py`. -/
def TEXT_HEIGHT : ℚ := 3/10

/-- Constant `MAX_X_POSITION = 40.0` set in `GroupPositioner.__init__`. -/
def MAX_X_POSITION : ℚ := 40

/-- Separator symbols `['+', '-', '|']` excluded from node computation. -/
def isSeparator (s : String) : Bool := s = "+" || s = "-" || s = "|"

/-! ### Data model

A parsed group as produced by the parsers: a `name`, an optional
`elements` list (absent for singleton groups whose name is the element). -/

structure GroupSpec where
  name : String
  elements : Option (List String)
  underline : Bool := false
deriving DecidableEq, Repr

/-- Python `group.get('elements', [group_name])`. -/
def groupElements (g : GroupSpec) : List String :=
  g.elements.getD [g.name]

/-! ### geometric_helper.py -/

/-- Function `ccw` nested in `GeometricHelper.segments_intersect`:
`(cy - ay) * (bx - ax) > (by - ay) * (cx - ax)`. -/
def ccw (ax ay bx bY cx cy : ℚ) : Bool :=
  decide ((cy - ay) * (bx - ax) > (bY - ay) * (cx - ax))

/-- Function `GeometricHelper.segments_intersect`. -/
def segments_intersect (x1 y1 x2 y2 x3 y3 x4 y4 : ℚ) : Bool :=
  (ccw x1 y1 x3 y3 x4 y4 != ccw x2 y2 x3 y3 x4 y4) &&
  (ccw x1 y1 x2 y2 x3 y3 != ccw x1 y1 x2 y2 x4 y4)

/-- Function `GeometricHelper.line_intersects_box`. -/
def line_intersects_box (x1 y1 x2 y2 bminx bminy bmaxx bmaxy : ℚ) : Bool :=
  (decide (bminx ≤ x1 ∧ x1 ≤ bmaxx ∧ bminy ≤ y1 ∧ y1 ≤ bmaxy)) ||
  (decide (bminx ≤ x2 ∧ x2 ≤ bmaxx ∧ bminy ≤ y2 ∧ y2 ≤ bmaxy)) ||
  segments_intersect x1 y1 x2 y2 bminx bminy bmaxx bminy ||
  segments_intersect x1 y1 x2 y2 bmaxx bminy bmaxx bmaxy ||
  segments_intersect x1 y1 x2 y2 bmaxx bmaxy bminx bmaxy ||
  segments_intersect x1 y1 x2 y2 bminx bmaxy bminx bminy

/-! ### conflict_detector.py -/

/-- An arrow `(source, sx, sy, target, tx, ty)` as used by the conflict
detector. -/
structure Arrow where
  source : String
  sx : ℚ
  sy : ℚ
  target : String
  tx : ℚ
  ty : ℚ
deriving DecidableEq, Repr

/-- Ordered pairs `(i, j)` with `i < j` of a list, in the iteration order of
the nested `for` loops of the detector. -/
def orderedPairs {α : Type} : List α → List (α × α)
  | [] => []
  | a :: rest => rest.map (fun b => (a, b)) ++ orderedPairs rest

/-- Condition under which `ConflictDetector.check_text_overlaps` records a
pair: identical position within `0.1`, or same level within `0.1` and
horizontal distance below `TEXT_WIDTH`. -/
def textOverlapCond (x1 y1 x2 y2 : ℚ) : Bool :=
  (decide (|x1 - x2| < 1/10 ∧ |y1 - y2| < 1/10)) ||
  (decide (|y1 - y2| < 1/10) && decide (|x1 - x2| < TEXT_WIDTH))

/-- Function `ConflictDetector.check_text_overlaps` over the ordered list of
`(name, (x, y))` node positions. -/
def check_text_overlaps (ps : List (String × ℚ × ℚ)) :
    List (String × ℚ × ℚ × String × ℚ × ℚ) :=
  (orderedPairs ps).filterMap (fun p =>
    if textOverlapCond p.1.2.1 p.1.2.2 p.2.2.1 p.2.2.2 then
      some (p.1.1, p.1.2.1, p.1.2.2, p.2.1, p.2.2.1, p.2.2.2)
    else none)

/-- Body of the inner loop of `ConflictDetector.check_arrow_crossings` for a
pair of arrows: skip pairs sharing an endpoint name, test
`segments_intersect`, and record the intersection point when the determinant
denominator exceeds `0.0001` in magnitude. -/
def crossPair (a b : Arrow) : Option (String × String × String × String × ℚ × ℚ) :=
  if a.source = b.source ∨ a.source = b.target ∨ a.target = b.source ∨ a.target = b.target then
    none
  else if segments_intersect a.sx a.sy a.tx a.ty b.sx b.sy b.tx b.ty then
    let denom := (a.sx - a.tx) * (b.sy - b.ty) - (a.sy - a.ty) * (b.sx - b.tx)
    if |denom| > 1/10000 then
      let t := ((a.sx - b.sx) * (b.sy - b.ty) - (a.sy - b.sy) * (b.sx - b.tx)) / denom
      some (a.source, a.target, b.source, b.target,
            a.sx + t * (a.tx - a.sx), a.sy + t * (a.ty - a.sy))
    else none
  else none

/-- Function `ConflictDetector.check_arrow_crossings`. -/
def check_arrow_crossings (arrows : List Arrow) :
    List (String × String × String × String × ℚ × ℚ) :=
  (orderedPairs arrows).filterMap (fun p => crossPair p.1 p.2)

/-- Function `ConflictDetector.build_position_lookup`: project
`elem ↦ (node_id, x, y)` to `elem ↦ (x, y)` preserving order. -/
def build_position_lookup (np : List (String × String × ℚ × ℚ)) :
    List (String × ℚ × ℚ) :=
  np.map (fun p => (p.1, p.2.2.1, p.2.2.2))

/-- Function `ConflictDetector.build_arrow_list` over a links dict whose
values are target lists. -/
def build_arrow_list (links : List (String × List String))
    (ps : List (String × ℚ × ℚ)) : List Arrow :=
  links.foldl (fun acc sl =>
    acc ++ sl.2.filterMap (fun tgt =>
      (alookup ps sl.1).bind (fun sp =>
        (alookup ps tgt).map (fun tp =>
          ⟨sl.1, sp.1, sp.2, tgt, tp.1, tp.2⟩)))) []

/-- Function `ConflictDetector.check_arrow_through_text`. -/
def check_arrow_through_text (arrows : List Arrow) (ps : List (String × ℚ × ℚ)) :
    List (String × String × String × ℚ × ℚ) :=
  arrows.foldl (fun acc a =>
    acc ++ ps.filterMap (fun p =>
      if p.1 = a.source ∨ p.1 = a.target then none
      else if line_intersects_box a.sx a.sy a.tx a.ty
              (p.2.1 - TEXT_WIDTH/2) (p.2.2 - TEXT_HEIGHT/2)
              (p.2.1 + TEXT_WIDTH/2) (p.2.2 + TEXT_HEIGHT/2) then
        some (a.source, a.target, p.1, p.2.1, p.2.2)
      else none)) []

/-! ### group_positioner.py -/

/-- A `levels` dict: `group_name ↦ y_level`. -/
abbrev Levels := List (String × ℚ)

/-- A `positions` dict: `group_name ↦ (start_x, elements)`. -/
abbrev Positions := List (String × ℚ × List String)

/-- A `node_positions` dict: `elem ↦ (node_id, x, y)`. -/
abbrev NodePositions := List (String × String × ℚ × ℚ)

/-- Width of one group as computed by
`GroupPositioner.calculate_group_widths` (`(n-1) * WITHIN_GROUP_SPACING`
when the group has more than one element, else `0`; groups without an
`elements` key have width `0`). -/
def groupWidth (w : ℚ) (g2g : List (String × GroupSpec)) (gname : String) : ℚ :=
  ((alookup g2g gname).bind (fun g => g.elements)).elim 0
    (fun es => if es.length > 1 then ((es.length : ℚ) - 1) * w else 0)

/-- Function `GroupPositioner.place_group_at`: record the level and start-x
of a group and set each non-separator element's node position to
`(elem, x + i * w, y)`.  (In Python a missing group name raises `KeyError`;
all call sites place existing groups, so the lookup default is unreachable.) -/
def place_group_at (w : ℚ) (g2g : List (String × GroupSpec)) (gname : String)
    (x y : ℚ) (levels : Levels) (positions : Positions) (np : NodePositions) :
    Levels × Positions × NodePositions :=
  let elements := (alookup g2g gname).elim [gname] groupElements
  let lv := aset levels gname y
  let ps := aset positions gname (x, elements)
  let np2 := elements.enum.foldl (fun acc ie =>
    if isSeparator ie.2 then acc
    else aset acc ie.2 (ie.2, x + (ie.1 : ℚ) * w, y)) np
  (lv, ps, np2)

/-- Function `GroupPositioner.shift_group_horizontally`: no-op when the
group has no positions entry, otherwise add `shift` to the stored start-x
and to the x-coordinate of each of the group's elements that is present in
`node_positions`. -/
def shift_group_horizontally (gname : String) (shift : ℚ)
    (positions : Positions) (np : NodePositions) : Positions × NodePositions :=
  (alookup positions gname).elim (positions, np) (fun pr =>
    let ps := aset positions gname (pr.1 + shift, pr.2)
    let np2 := pr.2.foldl (fun acc e =>
      (alookup acc e).elim acc (fun v =>
        aset acc e (v.1, v.2.1 + shift, v.2.2))) np
    (ps, np2))

/-! ### layout_engine.py — layer relaxation (lines 134–155)

The fixed-point relaxation of `compute_layout_bottom_up_arrow_aware`.
`group_layer` is embedded as a total function `String → ℕ` initialised to
`0` (the code initialises every group and every standalone element to `0`,
and inserts `0` for a target seen for the first time, so the total-function
view is equivalent). -/

/-- One link update of the relaxation: if the target group's layer is `≤`
the (snapshotted) source layer, raise it to `source_layer + 1` and set the
changed flag. -/
def relaxLink (e2g : String → String) (srcLayer : ℕ) (st : (String → ℕ) × Bool)
    (tgt : String) : (String → ℕ) × Bool :=
  let tG := e2g tgt
  if st.1 tG ≤ srcLayer then (Function.update st.1 tG (srcLayer + 1), true) else st

/-- Processing of one `outgoing` entry: the source layer is read once
before the inner loop over targets, as in the Python code. -/
def relaxEntry (e2g : String → String) (st : (String → ℕ) × Bool)
    (entry : String × List String) : (String → ℕ) × Bool :=
  let srcLayer := st.1 (e2g entry.1)
  entry.2.foldl (relaxLink e2g srcLayer) st

/-- One full pass over all links (`for src_elem, tgts in outgoing.items()`),
returning the updated layers and the `changed` flag. -/
def relaxPass (e2g : String → String) (outgoing : List (String × List String))
    (layers : String → ℕ) : (String → ℕ) × Bool :=
  outgoing.foldl (relaxEntry e2g) (layers, false)

/-- The `while changed:` loop, with explicit fuel: `none` means the fuel ran
out while the loop was still marking changes. -/
def relaxLoop (e2g : String → String) (outgoing : List (String × List String)) :
    ℕ → (String → ℕ) → Option (String → ℕ)
  | 0, _ => none
  | fuel + 1, layers =>
      let st := relaxPass e2g outgoing layers
      if st.2 then relaxLoop e2g outgoing fuel st.1 else some st.1

/-! ### layout_engine.py — `_collect_arrows` -/

/-- Method `LayoutEngine._collect_arrows`. -/
def collect_arrows (np : NodePositions) (outgoing : List (String × List String)) :
    List Arrow :=
  outgoing.foldl (fun acc sl =>
    acc ++ sl.2.filterMap (fun tgt =>
      (alookup np sl.1).bind (fun sp =>
        (alookup np tgt).map (fun tp =>
          ⟨sl.1, sp.2.1, sp.2.2, tgt, tp.2.1, tp.2.2⟩)))) []

/-! ### layout_engine.py — per-layer ordering search (lines 166–198) -/

/-- The possible heads of a permutation together with the remaining
elements, in input order: mirrors the branching order of
`itertools.permutations`. -/
def selections {α : Type} : List α → List (α × List α)
  | [] => []
  | x :: xs => (x, xs) :: (selections xs).map (fun p => (p.1, x :: p.2))

/-- All permutations of a list in the enumeration order of
`itertools.permutations` (lexicographic by input position), defined with
fuel equal to the list length. -/
def itPermsFuel {α : Type} : ℕ → List α → List (List α)
  | 0, _ => [[]]
  | _ + 1, [] => [[]]
  | fuel + 1, l =>
      (selections l).flatMap (fun p => (itPermsFuel fuel p.2).map (p.1 :: ·))

/-- Enumeration `list(itertools.permutations(layer))`. -/
def itPerms {α : Type} (l : List α) : List (List α) := itPermsFuel l.length l

/-- Trial placement of one candidate ordering (the inner `for group in
ordering` loop): place the groups left to right starting at `x = 0`,
advancing by group width plus `BETWEEN_GROUP_SPACING`. -/
def placeOrdering (w b : ℚ) (g2g : List (String × GroupSpec)) (yLevel : ℚ)
    (levels : Levels) (positions : Positions) (np : NodePositions)
    (ordering : List String) : (Levels × Positions × NodePositions) × ℚ :=
  ordering.foldl (fun st g =>
    let placed := place_group_at w g2g g st.2 yLevel st.1.1 st.1.2.1 st.1.2.2
    (placed, st.2 + groupWidth w g2g g + b)) ((levels, positions, np), 0)

/-- Number of arrow crossings of a candidate ordering: simulate the
placement, collect the arrows, and count `check_arrow_crossings`. -/
def orderingCrossings (w b : ℚ) (g2g : List (String × GroupSpec)) (yLevel : ℚ)
    (levels : Levels) (positions : Positions) (np : NodePositions)
    (outgoing : List (String × List String)) (ordering : List String) : ℕ :=
  (check_arrow_crossings
    (collect_arrows (placeOrdering w b g2g yLevel levels positions np ordering).1.2.2
      outgoing)).length

/-- The `for ordering in perms` loop of lines 176–192: keep the first
ordering that strictly lowers the running minimum (`min_crossings` starts
at infinity, modelled by the `none` accumulator), and break as soon as the
minimum reaches `0`. -/
def selectLoop (eval : List String → ℕ) :
    List (List String) → Option (List String × ℕ) → Option (List String × ℕ)
  | [], best => best
  | p :: rest, best =>
      let c := eval p
      match best with
      | none =>
          if c = 0 then some (p, c) else selectLoop eval rest (some (p, c))
      | some (bp, bm) =>
          if c < bm then
            (if c = 0 then some (p, c) else selectLoop eval rest (some (p, c)))
          else selectLoop eval rest (some (bp, bm))

/-- The per-layer ordering choice of
`compute_layout_bottom_up_arrow_aware` (lines 171–194): enumerate all
permutations when the layer has at most 8 groups, else try only the input
order; return the best ordering found.  (`best_order` cannot be `None`
since `perms` is never empty; the `getD` default is unreachable.) -/
def chooseOrdering (w b : ℚ) (g2g : List (String × GroupSpec)) (yLevel : ℚ)
    (levels : Levels) (positions : Positions) (np : NodePositions)
    (outgoing : List (String × List String)) (layer : List String) : List String :=
  let perms := if layer.length ≤ 8 then itPerms layer else [layer]
  (selectLoop (orderingCrossings w b g2g yLevel levels positions np outgoing)
      perms none).elim [] (fun p => p.1)

/-- Method `LayoutEngine._compute_median_target_x` (lines 607–641): collect
the x-coordinates of the group's targets (per element when the group has an
`elements` list, else for the group name itself), sort them, and return the
middle one (`target_positions[len // 2]`); groups without any placed target
get `0.0`.  (A group name absent from `group_name_to_group` raises
`KeyError` in Python; the `elim` default covers that unreached branch.) -/
def compute_median_target_x (g2g : List (String × GroupSpec))
    (outgoing : List (String × List String)) (np : NodePositions)
    (group : String) : ℚ :=
  let tps : List ℚ :=
    (alookup g2g group).elim []
      (fun gobj =>
        gobj.elements.elim
          (((alookup outgoing group).getD []).filterMap
            (fun tgt => (alookup np tgt).map (fun v => v.2.1)))
          (fun es => es.flatMap (fun elem =>
            ((alookup outgoing elem).getD []).filterMap
              (fun tgt => (alookup np tgt).map (fun v => v.2.1)))))
  let sorted := tps.mergeSort (fun a c => decide (a ≤ c))
  (sorted.get? (sorted.length / 2)).getD 0

/-- A nine-group layer in input order (more than 8 groups, so the
exhaustive ordering search is skipped). -/
def c3layer : List String := ["g9", "g8", "g7", "g6", "g5", "g4", "g3", "g2", "g1"]

/-- Nine singleton groups, one per layer entry. -/
def c3g2g : List (String × GroupSpec) :=
  c3layer.map (fun g => (g, ⟨g, none, false⟩))

/-- Links `g9 → t9` and `g8 → t8`; the other seven groups have no links. -/
def c3out : List (String × List String) := [("g9", ["t9"]), ("g8", ["t8"])]

/-- Already-placed target nodes: `t9` at `x = 9`, `t8` at `x = 8`. -/
def c3np : NodePositions := [("t9", ("t9", 9, 0)), ("t8", ("t8", 8, 0))]

/-- Two arrows whose only common point is the endpoint `(0, 0)` of the
first arrow, lying in the interior of the second: a touch, not an interior
crossing. -/
def c7arrows : List Arrow := [⟨"A", 0, -1, "B", 0, 0⟩, ⟨"C", 1, 0, "D", -1, 0⟩]

/-! ### layout_engine.py — `_split_groups_into_rows` (lines 577–605) -/

/-- Inner accumulation of `_split_groups_into_rows`: `cur` is
`current_row`, `curX` is `current_x`. -/
def splitGroupsGo (w b maxX : ℚ) (g2g : List (String × GroupSpec)) :
    List String → List String → ℚ → List (List String)
  | [], cur, _ => if cur.isEmpty then [] else [cur]
  | g :: rest, cur, curX =>
      let gw := groupWidth w g2g g
      if ¬ cur.isEmpty ∧ curX + b + gw > maxX then
        cur :: splitGroupsGo w b maxX g2g rest [g] gw
      else
        splitGroupsGo w b maxX g2g rest (cur ++ [g])
          ((if cur.isEmpty then curX else curX + b) + gw)

/-- Method `LayoutEngine._split_groups_into_rows`. -/
def split_groups_into_rows (w b maxX : ℚ) (g2g : List (String × GroupSpec))
    (ordered : List String) : List (List String) :=
  splitGroupsGo w b maxX g2g ordered [] 0

/-- Total span of one row: sum of group widths plus
`BETWEEN_GROUP_SPACING` between adjacent groups (the quantity tracked by
`current_x`). -/
def rowSpan (w b : ℚ) (g2g : List (String × GroupSpec)) : List String → ℚ
  | [] => 0
  | [g] => groupWidth w g2g g
  | g :: rest => groupWidth w g2g g + b + rowSpan w b g2g rest

/-! ### layout_engine.py — final non-downward check (lines 200–222) -/

/-- Construction of `node_y` (lines 201–207): for every element of every
positioned group that has a node position, record its y-coordinate. -/
def buildNodeY (positions : Positions) (np : NodePositions) : List (String × ℚ) :=
  positions.foldl (fun acc gp =>
    gp.2.2.foldl (fun acc e =>
      (alookup np e).elim acc (fun v => aset acc e v.2.2)) acc) []

/-- Collection of non-downward arrows (lines 209–217): every link whose
endpoints both have a `node_y` entry and whose source y is `≥` its target
y. -/
def nonDownwardArrows (outgoing : List (String × List String))
    (nodeY : List (String × ℚ)) : List (String × ℚ × String × ℚ) :=
  outgoing.foldl (fun acc sl =>
    acc ++ sl.2.filterMap (fun tgt =>
      (alookup nodeY sl.1).bind (fun ys =>
        (alookup nodeY tgt).bind (fun yt =>
          if ys ≥ yt then some (sl.1, ys, tgt, yt) else none)))) []

/-- Lines 200–223 of `compute_layout_bottom_up_arrow_aware`: build
`node_y`, collect the non-downward arrows, raise (here: `Except.error`
carrying the offending-arrow list from which the `RuntimeError` message is
formatted) when any exist, else return `(levels, positions)`. -/
def finalizeLayout (levels : Levels) (positions : Positions) (np : NodePositions)
    (outgoing : List (String × List String)) :
    Except (List (String × ℚ × String × ℚ)) (Levels × Positions) :=
  let bad := nonDownwardArrows outgoing (buildNodeY positions np)
  if bad.isEmpty then Except.ok (levels, positions) else Except.error bad

/-! ### conflict_detector.py — `detect_all_conflicts` -/

/-- Underline anchor adjustment of `ConflictDetector.detect_all_conflicts`
(lines 174–193): for each link source that names an underlined group with a
centre node, replace its position by the middle element's x at `y - 0.3`.
The whole adjustment is skipped when any of the auxiliary dicts is empty
(Python truthiness of the guard).  (A group present in `levels` but missing
from `positions` would raise `KeyError` in Python; the embedding skips the
entry, and no caller produces that state.) -/
def adjustUnderlinePositions (w : ℚ) (links : List (String × List String))
    (e2g : List (String × String)) (g2g : List (String × GroupSpec))
    (gcn : List (String × String)) (positions : Positions) (levels : Levels)
    (posLookup : List (String × ℚ × ℚ)) : List (String × ℚ × ℚ) :=
  if e2g.isEmpty ∨ g2g.isEmpty ∨ gcn.isEmpty ∨ positions.isEmpty ∨ levels.isEmpty then
    posLookup
  else
    links.foldl (fun adjusted sl =>
      let source := sl.1
      let sourceGroup := (alookup e2g source).getD source
      (alookup g2g sourceGroup).elim adjusted (fun gobj =>
        if gobj.underline ∧ source = sourceGroup ∧
            (alookup gcn sourceGroup).isSome then
          ((alookup positions sourceGroup).bind (fun pr =>
            (alookup levels sourceGroup).map (fun y =>
              aset adjusted source
                (pr.1 + ((pr.2.length / 2 : ℕ) : ℚ) * w, y - 3/10)))).getD adjusted
        else adjusted)) posLookup

/-- Method `ConflictDetector.detect_all_conflicts`: returns the three
conflict lists. -/
def detect_all_conflicts (w : ℚ) (np : NodePositions)
    (links : List (String × List String)) (e2g : List (String × String))
    (g2g : List (String × GroupSpec)) (gcn : List (String × String))
    (positions : Positions) (levels : Levels) :
    List (String × ℚ × ℚ × String × ℚ × ℚ) ×
    List (String × String × String × String × ℚ × ℚ) ×
    List (String × String × String × ℚ × ℚ) :=
  let posLookup := build_position_lookup np
  let adjusted := adjustUnderlinePositions w links e2g g2g gcn positions levels posLookup
  let arrows := build_arrow_list links adjusted
  (check_text_overlaps posLookup, check_arrow_crossings arrows,
   check_arrow_through_text arrows posLookup)

/-! ### conflict_resolver.py -/

/-- Method `ConflictResolver._shift_group_horizontally` (lines 139–157).
Unlike the positioner's version this recomputes every element's x as
`new_start + i * WITHIN_GROUP_SPACING`, and a missing group raises
`KeyError` (modelled as `none`). -/
def resolver_shift_group_horizontally (w : ℚ) (gname : String) (shift : ℚ)
    (positions : Positions) (np : NodePositions) :
    Option (Positions × NodePositions) :=
  (alookup positions gname).map (fun pr =>
    let newStart := pr.1 + shift
    let ps := aset positions gname (newStart, pr.2)
    let np2 := pr.2.enum.foldl (fun acc ie =>
      (alookup acc ie.2).elim acc (fun v =>
        aset acc ie.2 (v.1, newStart + (ie.1 : ℚ) * w, v.2.2))) np
    (ps, np2))

/-- Method `ConflictResolver._find_group_for_element`: first group whose
element list contains the element, or whose name equals it when it has no
element list. -/
def find_group_for_element (element : String)
    (g2g : List (String × GroupSpec)) : Option String :=
  match g2g with
  | [] => none
  | (gname, g) :: rest =>
      match g.elements with
      | some es =>
          if element ∈ es then some gname
          else find_group_for_element element rest
      | none =>
          if gname = element then some gname
          else find_group_for_element element rest

/-- Method `ConflictResolver._resolve_text_overlaps`: shift the group of
the first overlap's first element right by `1.0`; report whether any shift
happened. -/
def resolve_text_overlaps (w : ℚ)
    (overlaps : List (String × ℚ × ℚ × String × ℚ × ℚ))
    (positions : Positions) (np : NodePositions)
    (g2g : List (String × GroupSpec)) : Option (Positions × NodePositions) :=
  match overlaps with
  | [] => none
  | ov :: rest =>
      (find_group_for_element ov.1 g2g).elim
        (resolve_text_overlaps w rest positions np g2g)
        (fun group1 =>
          (resolver_shift_group_horizontally w group1 1 positions np).elim
            (resolve_text_overlaps w rest positions np g2g) some)

/-- Method `ConflictResolver._attempt_conflict_resolution`: only text
overlaps are attempted; arrow crossings and arrow-through-text conflicts
are deliberately skipped. -/
def attempt_conflict_resolution (w : ℚ)
    (overlaps : List (String × ℚ × ℚ × String × ℚ × ℚ))
    (positions : Positions) (np : NodePositions)
    (g2g : List (String × GroupSpec)) : Option (Positions × NodePositions) :=
  resolve_text_overlaps w overlaps positions np g2g

/-- The mutable state threaded through
`ConflictResolver.resolve_conflicts_iteratively`. -/
structure ResolveState where
  np : NodePositions
  levels : Levels
  positions : Positions
deriving DecidableEq, Repr

/-- Static inputs of `resolve_conflicts_iteratively`. -/
structure ResolveConfig where
  w : ℚ
  outgoing : List (String × List String)
  g2g : List (String × GroupSpec)
  e2g : List (String × String)
  gcn : List (String × String)
deriving Repr

/-- One conflict detection on the current state (the call to
`check_arrow_intersections(..., return_conflicts=True)`). -/
def detectState (cfg : ResolveConfig) (st : ResolveState) :
    List (String × ℚ × ℚ × String × ℚ × ℚ) ×
    List (String × String × String × String × ℚ × ℚ) ×
    List (String × String × String × ℚ × ℚ) :=
  detect_all_conflicts cfg.w st.np cfg.outgoing cfg.e2g cfg.g2g cfg.gcn
    st.positions st.levels

/-- Method `ConflictResolver.resolve_conflicts_iteratively` (lines
387–415): at most `fuel` (= `max_iterations`) iterations; stop as soon as
the total conflict count is `0` or an iteration resolves nothing.  Returns
the final state together with the trace of per-iteration conflict totals. -/
def resolve_conflicts_iteratively (cfg : ResolveConfig) :
    ℕ → ResolveState → ResolveState × List ℕ
  | 0, st => (st, [])
  | fuel + 1, st =>
      let c := detectState cfg st
      let total := c.1.length + c.2.1.length + c.2.2.length
      if total = 0 then (st, [total])
      else
        (attempt_conflict_resolution cfg.w c.1 st.positions st.np cfg.g2g).elim
          (st, [total])
          (fun pr =>
            let next := resolve_conflicts_iteratively cfg fuel ⟨pr.2, st.levels, pr.1⟩
            (next.1, total :: next.2))

/-! ### text_parser.py — `_validate_unique_elements` (lines 200–235) -/

/-- The `element_to_groups` dict built by `_validate_unique_elements`: for
every non-separator element occurrence, append the containing group's name. -/
def elementToGroupsMap (groups : List GroupSpec) : List (String × List String) :=
  groups.foldl (fun acc g =>
    (groupElements g).foldl (fun acc e =>
      if isSeparator e then acc
      else
        (alookup acc e).elim (acc ++ [(e, [g.name])])
          (fun gs => aset acc e (gs ++ [g.name]))) acc) []

/-- Method `TextFormatParser._validate_unique_elements`: collect elements
recorded in more than one group entry and raise `ValueError` (here:
`Except.error` carrying the duplicates from which the message is formatted)
when any exist. -/
def validate_unique_elements (groups : List GroupSpec) :
    Except (List (String × List String)) Unit :=
  let dups := (elementToGroupsMap groups).filter (fun p => p.2.length > 1)
  if dups.isEmpty then Except.ok () else Except.error dups

/-! ### diagram_generator.py — `DiagramGenerator.__init__` (lines 14–51) -/

/-- Loop body of `DiagramGenerator.__init__` for one group: record the
group under its name and map each of its elements (or, for a singleton
group, its name) to the group name. -/
def buildMappingsStep (maps : List (String × GroupSpec) × List (String × String))
    (g : GroupSpec) : List (String × GroupSpec) × List (String × String) :=
  let g2g := aset maps.1 g.name g
  match g.elements with
  | some elems =>
      (g2g, elems.foldl (fun m e => aset m e g.name) maps.2)
  | none => (g2g, aset maps.2 g.name g.name)

/-- The mapping construction of `DiagramGenerator.__init__`: build
`group_name_to_group` and `element_to_group` with no validation; a
duplicated element is silently overwritten (last write wins). -/
def buildMappings (groups : List GroupSpec) :
    List (String × GroupSpec) × List (String × String) :=
  groups.foldl buildMappingsStep ([], [])

/-- Predicate: this group declares this element (its element list contains
it, or it is a singleton group of that name). -/
def declaresElement (g : GroupSpec) (e : String) : Bool :=
  match g.elements with
  | some es => e ∈ es
  | none => g.name = e

/-! ### layout_engine.py — the row-placement loops (lines 198 and 569–573)

Both row-placement call sites — the `for row in rows` loop of
`compute_layout_bottom_up_arrow_aware` (line 198, constant `y_level` for
every row) and the `for i, row_groups in enumerate(rows)` loop of
`_place_layer_with_crossing_minimization` (line 572, `row_y = y_level + i`)
— invoke `self.row_placer.place_groups_on_row(..., force_sequential=True)`.
`RowPlacer.place_groups_on_row` (row_placer.py line 29) has the parameters
`(group_names, y_level, levels, positions, node_positions, center=False)`:
there is no `force_sequential` parameter and no keyword catch-all, so in
Python the call itself raises `TypeError` on the loop's first iteration,
before any placement work happens.  Only an empty row list, whose loop
body never runs, completes without error. -/

/-- A row-placement loop over `rows` under Python call semantics: an empty
row list never enters the loop body and leaves the state unchanged; any
nonempty row list raises `TypeError` at the first
`place_groups_on_row(..., force_sequential=True)` call. -/
def placeLayerRows (rows : List (List String))
    (st : Levels × Positions × NodePositions) :
    Except String (Levels × Positions × NodePositions) :=
  match rows with
  | [] => Except.ok st
  | _ :: _ =>
      Except.error
        "TypeError: place_groups_on_row got an unexpected keyword argument force_sequential"

/-! ### Concrete instances and spec-side definitions used by the claims -/

/-- The text-overlap predicate as the spec sentence states it: axis-aligned
bounding boxes whose width is proportional to the label's character count
(per-character constant `TEXT_WIDTH`) with fixed height `TEXT_HEIGHT`,
within the minimum separation tolerance `0.1` in both dimensions
simultaneously. -/
def specTextOverlapBoxes (n1 : String) (x1 y1 : ℚ) (n2 : String) (x2 y2 : ℚ) : Prop :=
  |x1 - x2| - (TEXT_WIDTH * n1.length + TEXT_WIDTH * n2.length) / 2 < 1/10 ∧
  |y1 - y2| - TEXT_HEIGHT < 1/10

/-- One occurrence record `(element, group_name)` processed by
`_validate_unique_elements`. -/
def pushOcc (acc : List (String × List String)) (p : String × String) :
    List (String × List String) :=
  if isSeparator p.1 then acc
  else (alookup acc p.1).elim (acc ++ [(p.1, [p.2])])
    (fun gs => aset acc p.1 (gs ++ [p.2]))

/-- All `(element, group_name)` occurrence pairs of a spec, in scan order. -/
def occPairs (groups : List GroupSpec) : List (String × String) :=
  groups.flatMap (fun g => (groupElements g).map (fun e => (e, g.name)))

/-- The group names recorded for one element by the validator: one entry
per occurrence, in scan order. -/
def occOf (pairs : List (String × String)) (e : String) : List String :=
  (pairs.filter (fun p => p.1 = e)).map (fun p => p.2)

/-- Occurrence list of an element over a whole spec. -/
def occurrenceGroups (groups : List GroupSpec) (e : String) : List String :=
  occOf (occPairs groups) e

/-- An 18-element group: its width `17 × 2.5 = 42.5` exceeds
`MAX_X_POSITION = 40`. -/
def c4WideGroup : GroupSpec :=
  ⟨"G", some ["e1", "e2", "e3", "e4", "e5", "e6", "e7", "e8", "e9", "e10",
    "e11", "e12", "e13", "e14", "e15", "e16", "e17", "e18"], false⟩

/-- The three-group configuration of the C5 counterexample: `A`, `B`, `C`
in singleton groups, no links. -/
def c5g2g : List (String × GroupSpec) :=
  [("GA", ⟨"GA", some ["A"], false⟩), ("GB", ⟨"GB", some ["B"], false⟩),
   ("GC", ⟨"GC", some ["C"], false⟩)]

/-- Resolver configuration of the C5 counterexample. -/
def c5cfg : ResolveConfig :=
  ⟨5/2, [], c5g2g, [("A", "GA"), ("B", "GB"), ("C", "GC")], []⟩

/-- Starting state of the C5 counterexample: `A` at x = 0, `B` at `0.5`,
`C` at `1.5`, all on the same level. -/
def c5st : ResolveState :=
  ⟨[("A", ("A", 0, 0)), ("B", ("B", 1/2, 0)), ("C", ("C", 3/2, 0))],
   [("GA", 0), ("GB", 0), ("GC", 0)],
   [("GA", (0, ["A"])), ("GB", (1/2, ["B"])), ("GC", (3/2, ["C"]))]⟩

/-- Intermediate state of the C5 counterexample after one shift of `GA`. -/
def c5st1 : ResolveState :=
  ⟨[("A", ("A", 1, 0)), ("B", ("B", 1/2, 0)), ("C", ("C", 3/2, 0))],
   [("GA", 0), ("GB", 0), ("GC", 0)],
   [("GA", (1, ["A"])), ("GB", (1/2, ["B"])), ("GC", (3/2, ["C"]))]⟩

/-- Intermediate state of the C5 counterexample after two shifts of `GA`. -/
def c5st2 : ResolveState :=
  ⟨[("A", ("A", 2, 0)), ("B", ("B", 1/2, 0)), ("C", ("C", 3/2, 0))],
   [("GA", 0), ("GB", 0), ("GC", 0)],
   [("GA", (2, ["A"])), ("GB", (1/2, ["B"])), ("GC", (3/2, ["C"]))]⟩

/-- Final state of the C5 counterexample after three shifts of `GA`. -/
def c5st3 : ResolveState :=
  ⟨[("A", ("A", 3, 0)), ("B", ("B", 1/2, 0)), ("C", ("C", 3/2, 0))],
   [("GA", 0), ("GB", 0), ("GC", 0)],
   [("GA", (3, ["A"])), ("GB", (1/2, ["B"])), ("GC", (3/2, ["C"]))]⟩

/-! ## Shared list lemmas -/

theorem alookup_aset_self {α : Type} (m : List (String × α)) (k : String) (v : α) :
    alookup (aset m k v) k = some v := by
  induction m with
  | nil => simp [aset, alookup]
  | cons p rest ih =>
      obtain ⟨k0, v0⟩ := p
      by_cases h : k0 = k
      · subst h; simp [aset, alookup]
      · simp [aset, alookup, h, ih]

theorem alookup_aset_other {α : Type} (m : List (String × α)) (k k' : String) (v : α)
    (hne : k' ≠ k) : alookup (aset m k v) k' = alookup m k' := by
  have hne2 : ¬ (k = k') := fun h => hne h.symm
  induction m with
  | nil => simp [aset, alookup, hne2]
  | cons p rest ih =>
      obtain ⟨k0, v0⟩ := p
      by_cases h : k0 = k
      · subst h
        simp only [aset, if_pos rfl, alookup]
        simp [hne2]
      · simp [aset, alookup, h, ih]


theorem foldl_append_eq_flatMap {α β : Type} (g : α → List β) (l : List α)
    (acc : List β) :
    l.foldl (fun a x => a ++ g x) acc = acc ++ l.flatMap g := by
  induction l generalizing acc with
  | nil => simp
  | cons x rest ih => simp [List.foldl_cons, ih, List.append_assoc]

theorem alookup_append {α : Type} (m1 m2 : List (String × α)) (k : String) :
    alookup (m1 ++ m2) k = ((alookup m1 k).orElse (fun _ => alookup m2 k)) := by
  induction m1 with
  | nil => simp [alookup]
  | cons p rest ih =>
      by_cases h : p.1 = k
      · simp [alookup, h, Option.orElse]
      · simp [alookup, h, ih]

theorem mem_orderedPairs {α : Type} (l : List α) (a b : α) :
    (a, b) ∈ orderedPairs l ↔ [a, b].Sublist l := by
  induction l with
  | nil => simp [orderedPairs]
  | cons x rest ih =>
      simp only [orderedPairs, List.mem_append, List.mem_map]
      constructor
      · rintro (⟨c, hc, heq⟩ | h)
        · have h1 : x = a := congrArg Prod.fst heq
          have h2 : c = b := congrArg Prod.snd heq
          subst h1; subst h2
          exact List.Sublist.cons₂ x (List.singleton_sublist.mpr hc)
        · exact (ih.mp h).cons x
      · intro h
        cases h with
        | cons _ htail => exact Or.inr (ih.mpr htail)
        | cons₂ _ htail => exact Or.inl ⟨b, List.singleton_sublist.mp htail, rfl⟩

/-! ## Claim C6 — text-overlap condition -/

theorem textOverlapCond_iff (x1 y1 x2 y2 : ℚ) :
    textOverlapCond x1 y1 x2 y2 = true ↔ |y1 - y2| < 1/10 ∧ |x1 - x2| < TEXT_WIDTH := by
  unfold textOverlapCond TEXT_WIDTH
  simp only [Bool.or_eq_true, Bool.and_eq_true, decide_eq_true_eq]
  constructor
  · rintro (⟨hx, hy⟩ | ⟨hy, hx⟩)
    · exact ⟨hy, by linarith⟩
    · exact ⟨hy, hx⟩
  · rintro ⟨hy, hx⟩
    exact Or.inr ⟨hy, hx⟩

/-- Claim C6 (amended): `check_text_overlaps` reports a pair of elements if
and only if they appear in order in the position list, their y-coordinates
differ by less than `0.1`, and their x-coordinates differ by less than the
fixed constant `TEXT_WIDTH` — independently of the labels' character
counts (the identical-coordinates clause is subsumed, since `0.1 <
TEXT_WIDTH`). -/
theorem C6_text_overlap_characterization (ps : List (String × ℚ × ℚ))
    (n1 n2 : String) (x1 y1 x2 y2 : ℚ) :
    (n1, x1, y1, n2, x2, y2) ∈ check_text_overlaps ps ↔
      ((n1, x1, y1), (n2, x2, y2)) ∈ orderedPairs ps ∧
        |y1 - y2| < 1/10 ∧ |x1 - x2| < TEXT_WIDTH := by
  unfold check_text_overlaps
  rw [List.mem_filterMap]
  constructor
  · rintro ⟨⟨⟨m1, a1, b1⟩, ⟨m2, a2, b2⟩⟩, hmem, heq⟩
    simp only at heq
    by_cases hc : textOverlapCond a1 b1 a2 b2
    · rw [if_pos hc] at heq
      simp only [Option.some.injEq, Prod.mk.injEq] at heq
      obtain ⟨rfl, rfl, rfl, rfl, rfl, rfl⟩ := heq
      exact ⟨hmem, (textOverlapCond_iff _ _ _ _).mp hc⟩
    · rw [if_neg hc] at heq
      exact absurd heq (by simp)
  · rintro ⟨hmem, hy, hx⟩
    refine ⟨((n1, x1, y1), (n2, x2, y2)), hmem, ?_⟩
    rw [if_pos ((textOverlapCond_iff x1 y1 x2 y2).mpr ⟨hy, hx⟩)]

/-- Claim C6 counterexample: labels `"AB"` and `"CD"` at distance `1.2` on
the same level.  Under the spec's label-length-proportional boxes they
overlap (each box is `1.28` wide), but the code — whose threshold is the
fixed constant `TEXT_WIDTH = 0.64`, independent of label length — reports
nothing. -/
theorem C6_counterexample :
    specTextOverlapBoxes "AB" 0 0 "CD" (6/5) 0 ∧
      check_text_overlaps [("AB", 0, 0), ("CD", 6/5, 0)] = [] := by
  constructor
  · constructor
    · have habs : |(6:ℚ)/5| = 6/5 := abs_of_nonneg (by norm_num)
      norm_num [TEXT_WIDTH, String.length, habs]
    · norm_num [TEXT_HEIGHT]
  · norm_num [check_text_overlaps, orderedPairs, textOverlapCond, TEXT_WIDTH,
      List.filterMap_cons, abs]

theorem filterMap_cons_toList {α β : Type} (f : α → Option β) (a : α) (l : List α) :
    List.filterMap f (a :: l) = (f a).toList ++ List.filterMap f l := by
  cases h : f a <;> simp [List.filterMap_cons, h]

/-! ## Claim C1 — final non-downward arrow check -/

theorem nonDownwardArrows_eq_flatMap (out : List (String × List String))
    (ny : List (String × ℚ)) :
    nonDownwardArrows out ny = out.flatMap (fun sl =>
      sl.2.filterMap (fun tgt =>
        (alookup ny sl.1).bind (fun ys =>
          (alookup ny tgt).bind (fun yt =>
            if ys ≥ yt then some (sl.1, ys, tgt, yt) else none)))) := by
  unfold nonDownwardArrows
  exact foldl_append_eq_flatMap _ out []

theorem mem_nonDownwardArrows (out : List (String × List String))
    (ny : List (String × ℚ)) (src tgt : String) (ys yt : ℚ) :
    (src, ys, tgt, yt) ∈ nonDownwardArrows out ny ↔
      ∃ tl, (src, tl) ∈ out ∧ tgt ∈ tl ∧
        alookup ny src = some ys ∧ alookup ny tgt = some yt ∧ ys ≥ yt := by
  rw [nonDownwardArrows_eq_flatMap, List.mem_flatMap]
  constructor
  · rintro ⟨⟨s, tl⟩, hsl, hmem⟩
    rw [List.mem_filterMap] at hmem
    obtain ⟨t, ht, heq⟩ := hmem
    rw [Option.bind_eq_some] at heq
    obtain ⟨ys0, h1, heq⟩ := heq
    rw [Option.bind_eq_some] at heq
    obtain ⟨yt0, h2, heq⟩ := heq
    by_cases hge : ys0 ≥ yt0
    · rw [if_pos hge] at heq
      simp only [Option.some.injEq, Prod.mk.injEq] at heq
      obtain ⟨rfl, rfl, rfl, rfl⟩ := heq
      exact ⟨tl, hsl, ht, h1, h2, hge⟩
    · rw [if_neg hge] at heq
      exact absurd heq (by simp)
  · rintro ⟨tl, hsl, ht, h1, h2, hge⟩
    refine ⟨(src, tl), hsl, ?_⟩
    rw [List.mem_filterMap]
    refine ⟨tgt, ht, ?_⟩
    rw [h1, h2]
    simp [hge]

/-- Claim C1 (amended): the final check of
`compute_layout_bottom_up_arrow_aware` either returns the layout, in which
case every link whose endpoints both received coordinates has the
y-coordinate of its source strictly *smaller* than that of its target
(the engine's internal convention — an arrow with `y(source) ≥ y(target)`
is flagged as non-downward), or raises an error whose diagnostic lists
exactly the offending arrows `(source, its y, target, its y)`. -/
theorem C1_finalize_check (levels : Levels) (positions : Positions)
    (np : NodePositions) (out : List (String × List String)) :
    (∀ res, finalizeLayout levels positions np out = Except.ok res →
      res = (levels, positions) ∧
      ∀ src tl tgt ys yt, (src, tl) ∈ out → tgt ∈ tl →
        alookup (buildNodeY positions np) src = some ys →
        alookup (buildNodeY positions np) tgt = some yt → ys < yt) ∧
    (∀ bad, finalizeLayout levels positions np out = Except.error bad →
      bad ≠ [] ∧
      ∀ src ys tgt yt, (src, ys, tgt, yt) ∈ bad ↔
        ∃ tl, (src, tl) ∈ out ∧ tgt ∈ tl ∧
          alookup (buildNodeY positions np) src = some ys ∧
          alookup (buildNodeY positions np) tgt = some yt ∧ ys ≥ yt) := by
  constructor
  · intro res hok
    unfold finalizeLayout at hok
    by_cases hbad : (nonDownwardArrows out (buildNodeY positions np)).isEmpty
    · rw [if_pos hbad] at hok
      refine ⟨(Except.ok.inj hok).symm, ?_⟩
      intro src tl tgt ys yt hsl ht h1 h2
      by_contra hlt
      push_neg at hlt
      have hmem : (src, ys, tgt, yt) ∈ nonDownwardArrows out (buildNodeY positions np) :=
        (mem_nonDownwardArrows _ _ _ _ _ _).mpr ⟨tl, hsl, ht, h1, h2, hlt⟩
      rw [List.isEmpty_iff] at hbad
      rw [hbad] at hmem
      exact absurd hmem (List.not_mem_nil _)
    · rw [if_neg hbad] at hok
      exact absurd hok (by simp)
  · intro bad herr
    unfold finalizeLayout at herr
    by_cases hbad : (nonDownwardArrows out (buildNodeY positions np)).isEmpty
    · rw [if_pos hbad] at herr
      exact absurd herr (by simp)
    · rw [if_neg hbad] at herr
      have hb := Except.error.inj herr
      subst hb
      refine ⟨fun h => hbad (h ▸ rfl), ?_⟩
      intro src ys tgt yt
      exact mem_nonDownwardArrows _ _ _ _ _ _

/-- Claim C1 witness: on a layout with one link `A -> B` where
`y(A) = 0 < 2 = y(B)` the check returns the layout unchanged. -/
theorem C1_witness :
    finalizeLayout [("GA", 0), ("GB", 2)]
      [("GA", (0, ["A"])), ("GB", (0, ["B"]))]
      [("A", ("A", 0, 0)), ("B", ("B", 0, 2))] [("A", ["B"])] =
      Except.ok ([("GA", 0), ("GB", 2)],
        [("GA", (0, ["A"])), ("GB", (0, ["B"]))]) ∧
    ([("GA", (0:ℚ)), ("GB", 2)], [("GA", ((0:ℚ), ["A"])), ("GB", (0, ["B"]))]) =
      ([("GA", 0), ("GB", 2)], [("GA", (0, ["A"])), ("GB", (0, ["B"]))]) := by
  have hrun : finalizeLayout [("GA", 0), ("GB", 2)]
      [("GA", (0, ["A"])), ("GB", (0, ["B"]))]
      [("A", ("A", 0, 0)), ("B", ("B", 0, 2))] [("A", ["B"])] =
      Except.ok ([("GA", 0), ("GB", 2)],
        [("GA", (0, ["A"])), ("GB", (0, ["B"]))]) := by
    simp [finalizeLayout, nonDownwardArrows, buildNodeY, alookup, aset,
      filterMap_cons_toList]
  exact ⟨hrun, ((C1_finalize_check _ _ _ _).1 _ hrun).1.symm⟩

/-- Claim C1 counterexample: a layout whose only link points strictly
downward in the claim's sense — `y(source) = 2 > 0 = y(target)` — is
*rejected*: generation aborts with that arrow in the diagnostic, because
the code accepts only `y(source) < y(target)`. -/
theorem C1_counterexample :
    finalizeLayout [("GA", 2), ("GB", 0)]
      [("GA", (0, ["A"])), ("GB", (0, ["B"]))]
      [("A", ("A", 0, 2)), ("B", ("B", 0, 0))] [("A", ["B"])] =
      Except.error [("A", 2, "B", 0)] := by
  simp [finalizeLayout, nonDownwardArrows, buildNodeY, alookup, aset,
    filterMap_cons_toList]

/-! ## Claim C10 — DiagramGenerator.__init__ performs no validation -/

theorem alookup_foldl_aset_const (elems : List String) (v : String)
    (m : List (String × String)) (e : String) :
    alookup (elems.foldl (fun m x => aset m x v) m) e =
      if e ∈ elems then some v else alookup m e := by
  induction elems generalizing m with
  | nil => simp
  | cons x rest ih =>
      rw [List.foldl_cons, ih]
      by_cases hmem : e ∈ rest
      · simp [hmem]
      · by_cases hx : e = x
        · subst hx
          simp [hmem, alookup_aset_self]
        · simp [hmem, hx, alookup_aset_other m x e v hx]

theorem buildMappingsStep_e2g (maps : List (String × GroupSpec) × List (String × String))
    (g : GroupSpec) (e : String) :
    alookup (buildMappingsStep maps g).2 e =
      if declaresElement g e then some g.name else alookup maps.2 e := by
  unfold buildMappingsStep declaresElement
  cases h : g.elements with
  | none =>
      simp only
      by_cases hx : g.name = e
      · subst hx
        simp [alookup_aset_self]
      · simp [hx, alookup_aset_other maps.2 g.name e g.name (fun h2 => hx h2.symm)]
  | some elems =>
      simp only [alookup_foldl_aset_const]
      by_cases hmem : e ∈ elems <;> simp [hmem]

theorem buildMappings_foldl_e2g (groups : List GroupSpec)
    (init : List (String × GroupSpec) × List (String × String)) (e : String) :
    alookup (groups.foldl buildMappingsStep init).2 e =
      ((groups.filter (fun g => declaresElement g e)).getLast?).elim
        (alookup init.2 e) (fun g => some g.name) := by
  induction groups generalizing init with
  | nil => simp
  | cons g rest ih =>
      rw [List.foldl_cons, ih]
      by_cases hp : declaresElement g e
      · have hf : (g :: rest).filter (fun g => declaresElement g e) =
            g :: rest.filter (fun g => declaresElement g e) := by
          simp [List.filter_cons, hp]
        rw [hf]
        cases hrest : rest.filter (fun g => declaresElement g e) with
        | nil => simp [buildMappingsStep_e2g, hp]
        | cons h t =>
            obtain ⟨v, hv⟩ := Option.isSome_iff_exists.mp
              (List.getLast?_isSome.mpr (List.cons_ne_nil h t))
            rw [List.getLast?_cons_cons, hv]
            rfl
      · have hf : (g :: rest).filter (fun g => declaresElement g e) =
            rest.filter (fun g => declaresElement g e) := by
          simp [List.filter_cons, hp]
        rw [hf]
        cases hrest : rest.filter (fun g => declaresElement g e) with
        | nil => simp [buildMappingsStep_e2g, hp]
        | cons h t =>
            obtain ⟨v, hv⟩ := Option.isSome_iff_exists.mp
              (List.getLast?_isSome.mpr (List.cons_ne_nil h t))
            rw [hv]
            rfl

/-- Claim C10: constructing the generator's maps from a spec performs no
duplicate validation — the construction is a total function that never
rejects its input — and `element_to_group` maps every element to the *last*
group of the spec that declares it (last write wins). -/
theorem C10_element_to_group_last_write_wins (groups : List GroupSpec) (e : String) :
    alookup (buildMappings groups).2 e =
      ((groups.filter (fun g => declaresElement g e)).getLast?).elim
        none (fun g => some g.name) := by
  unfold buildMappings
  rw [buildMappings_foldl_e2g]
  cases (groups.filter (fun g => declaresElement g e)).getLast? <;> simp [alookup]

/-! ## Claim C9 — horizontal group shift frame conditions -/

theorem posShiftFold_not_mem (shift : ℚ) (elems : List String)
    (np : NodePositions) (e : String) (he : e ∉ elems) :
    alookup (elems.foldl (fun acc e =>
      (alookup acc e).elim acc (fun v =>
        aset acc e (v.1, v.2.1 + shift, v.2.2))) np) e = alookup np e := by
  induction elems generalizing np with
  | nil => rfl
  | cons x rest ih =>
      have hx : e ≠ x := fun h => he (h ▸ List.mem_cons_self x rest)
      have hrest : e ∉ rest := fun h => he (List.mem_cons_of_mem x h)
      rw [List.foldl_cons, ih _ hrest]
      cases hv : alookup np x with
      | none => simp
      | some v => simp [alookup_aset_other np x e _ hx]

theorem posShiftFold_mem (shift : ℚ) (elems : List String)
    (np : NodePositions) (e : String) (he : e ∈ elems) (hnd : elems.Nodup) :
    alookup (elems.foldl (fun acc e =>
      (alookup acc e).elim acc (fun v =>
        aset acc e (v.1, v.2.1 + shift, v.2.2))) np) e =
      (alookup np e).map (fun v => (v.1, v.2.1 + shift, v.2.2)) := by
  induction elems generalizing np with
  | nil => exact absurd he (List.not_mem_nil e)
  | cons x rest ih =>
      obtain ⟨hx, hnd2⟩ := List.nodup_cons.mp hnd
      rcases List.mem_cons.mp he with rfl | hrest
      · rw [List.foldl_cons, posShiftFold_not_mem shift rest _ e hx]
        cases hv : alookup np e with
        | none => simp [hv]
        | some v => simp [hv, alookup_aset_self]
      · have hne : e ≠ x := fun h => hx (h ▸ hrest)
        rw [List.foldl_cons, ih _ hrest hnd2]
        cases hv : alookup np x with
        | none => simp
        | some v => simp [alookup_aset_other np x e _ hne]

theorem resShiftFold_not_mem (w newStart : ℚ) (elems : List String) (n : ℕ)
    (np : NodePositions) (e : String) (he : e ∉ elems) :
    alookup ((List.enumFrom n elems).foldl (fun acc ie =>
      (alookup acc ie.2).elim acc (fun v =>
        aset acc ie.2 (v.1, newStart + (ie.1 : ℚ) * w, v.2.2))) np) e = alookup np e := by
  induction elems generalizing np n with
  | nil => rfl
  | cons x rest ih =>
      have hx : e ≠ x := fun h => he (h ▸ List.mem_cons_self x rest)
      have hrest : e ∉ rest := fun h => he (List.mem_cons_of_mem x h)
      rw [List.enumFrom_cons, List.foldl_cons, ih _ _ hrest]
      cases hv : alookup np x with
      | none => simp
      | some v => simp [alookup_aset_other np x e _ hx]

theorem resShiftFold_mem (w newStart : ℚ) (elems : List String) (n i : ℕ)
    (np : NodePositions) (e : String) (he : elems.get? i = some e)
    (hnd : elems.Nodup) :
    alookup ((List.enumFrom n elems).foldl (fun acc ie =>
      (alookup acc ie.2).elim acc (fun v =>
        aset acc ie.2 (v.1, newStart + (ie.1 : ℚ) * w, v.2.2))) np) e =
      (alookup np e).map (fun v => (v.1, newStart + ((n + i : ℕ) : ℚ) * w, v.2.2)) := by
  induction elems generalizing np n i with
  | nil => exact absurd he (by simp)
  | cons x rest ih =>
      obtain ⟨hx, hnd2⟩ := List.nodup_cons.mp hnd
      cases i with
      | zero =>
          have hex : x = e := by simpa using he
          subst hex
          rw [List.enumFrom_cons, List.foldl_cons,
            resShiftFold_not_mem w newStart rest (n+1) _ _ hx]
          cases hv : alookup np x with
          | none => simp [hv]
          | some v => simp [hv, alookup_aset_self]
      | succ j =>
          have hrest : rest.get? j = some e := by simpa using he
          have hmem : e ∈ rest := List.get?_mem hrest
          have hne : e ≠ x := fun h => hx (h ▸ hmem)
          rw [List.enumFrom_cons, List.foldl_cons]
          have hstep : alookup ((alookup np x).elim np (fun v =>
              aset np x (v.1, newStart + (n : ℚ) * w, v.2.2))) e = alookup np e := by
            cases hv : alookup np x with
            | none => simp
            | some v => simp [alookup_aset_other np x e _ hne]
          rw [ih _ _ _ hrest hnd2, hstep]
          have harith : ((n + 1 + j : ℕ) : ℚ) = ((n + (j + 1) : ℕ) : ℚ) := by
            push_cast; ring
          rw [harith]

/-- Claim C9 (amended): `GroupPositioner.shift_group_horizontally` behaves
exactly as the claim states — a missing group is a no-op, the group's
start-x moves by exactly `delta`, each of the group's elements present in
`node_positions` moves by exactly `delta` in x with y unchanged, and
everything else is untouched.  The `ConflictResolver._shift_group_horizontally`
variant differs: a missing group raises `KeyError` (modelled as `none`),
and each element's x is *recomputed* as `new_start + i * WITHIN_GROUP_SPACING`
— equal to a `delta` shift only when the element sat at its grid offset. -/
theorem C9_shift_characterization (gname : String) (d w : ℚ)
    (positions : Positions) (np : NodePositions) :
    (alookup positions gname = none →
      shift_group_horizontally gname d positions np = (positions, np) ∧
      resolver_shift_group_horizontally w gname d positions np = none) ∧
    (∀ x elems, alookup positions gname = some (x, elems) → elems.Nodup →
      (alookup (shift_group_horizontally gname d positions np).1 gname =
          some (x + d, elems) ∧
        (∀ g, g ≠ gname →
          alookup (shift_group_horizontally gname d positions np).1 g =
            alookup positions g) ∧
        (∀ e, e ∈ elems →
          alookup (shift_group_horizontally gname d positions np).2 e =
            (alookup np e).map (fun v => (v.1, v.2.1 + d, v.2.2))) ∧
        (∀ e, e ∉ elems →
          alookup (shift_group_horizontally gname d positions np).2 e =
            alookup np e)) ∧
      (∃ ps2 np2,
        resolver_shift_group_horizontally w gname d positions np = some (ps2, np2) ∧
        alookup ps2 gname = some (x + d, elems) ∧
        (∀ g, g ≠ gname → alookup ps2 g = alookup positions g) ∧
        (∀ i e, elems.get? i = some e →
          alookup np2 e =
            (alookup np e).map (fun v => (v.1, x + d + (i : ℚ) * w, v.2.2))) ∧
        (∀ e, e ∉ elems → alookup np2 e = alookup np e))) := by
  constructor
  · intro hnone
    unfold shift_group_horizontally resolver_shift_group_horizontally
    rw [hnone]
    exact ⟨rfl, rfl⟩
  · intro x elems hsome hnd
    constructor
    · unfold shift_group_horizontally
      rw [hsome]
      refine ⟨?_, ?_, ?_, ?_⟩
      · simp [alookup_aset_self]
      · intro g hg
        simp [alookup_aset_other positions gname g _ hg]
      · intro e he
        exact posShiftFold_mem d elems np e he hnd
      · intro e he
        exact posShiftFold_not_mem d elems np e he
    · unfold resolver_shift_group_horizontally
      rw [hsome]
      refine ⟨_, _, rfl, ?_, ?_, ?_, ?_⟩
      · simp [alookup_aset_self]
      · intro g hg
        simp [alookup_aset_other positions gname g _ hg]
      · intro i e he
        have hgoal := resShiftFold_mem w (x + d) elems 0 i np e he hnd
        simp only [List.enum] at hgoal ⊢
        simpa using hgoal
      · intro e he
        have hgoal := resShiftFold_not_mem w (x + d) elems 0 np e he
        simp only [List.enum] at hgoal ⊢
        simpa using hgoal

/-- Claim C9 witness: shifting group `G` (one element `A` at x = 0) right
by `1` moves `A` to x = 1 with y unchanged. -/
theorem C9_witness :
    alookup (shift_group_horizontally "G" 1
      [("G", (0, ["A"]))] [("A", ("A", 0, 0))]).2 "A" = some ("A", 0 + 1, 0) := by
  have h := ((C9_shift_characterization "G" 1 (5/2)
      [("G", (0, ["A"]))] [("A", ("A", 0, 0))]).2 0 ["A"]
      (by simp [alookup]) (by simp)).1.2.2.1 "A" (by simp)
  rw [h]
  simp [alookup]

/-- Claim C9 counterexample: the resolver's variant applied to a group at
start-x `0` whose element `A` sits displaced at x = 5 sets `A`'s x to
`1` (= new start + 0·spacing), not to `5 + 1` as the claim's
"each by exactly delta" requires. -/
theorem C9_counterexample :
    resolver_shift_group_horizontally (5/2) "G" 1
      [("G", (0, ["A"]))] [("A", ("A", 5, 0))] =
      some ([("G", (1, ["A"]))], [("A", ("A", 1, 0))]) ∧ (1 : ℚ) ≠ 5 + 1 := by
  constructor
  · simp [resolver_shift_group_horizontally, alookup, aset, List.enum, List.enumFrom]
  · norm_num

/-! ## Claim C8 — parser duplicate-element validation -/

theorem elementToGroupsMap_eq_foldl (groups : List GroupSpec) :
    elementToGroupsMap groups = (occPairs groups).foldl pushOcc [] := by
  suffices h : ∀ (acc : List (String × List String)),
      groups.foldl (fun acc g =>
        (groupElements g).foldl (fun acc e =>
          if isSeparator e then acc
          else
            (alookup acc e).elim (acc ++ [(e, [g.name])])
              (fun gs => aset acc e (gs ++ [g.name]))) acc) acc =
      (occPairs groups).foldl pushOcc acc by
    exact h []
  induction groups with
  | nil => intro acc; rfl
  | cons g rest ih =>
      intro acc
      rw [List.foldl_cons, ih]
      simp only [occPairs, List.flatMap_cons, List.foldl_append, List.foldl_map]
      rfl

theorem alookup_eq_none_iff {α : Type} (m : List (String × α)) (k : String) :
    alookup m k = none ↔ k ∉ m.map (fun p => p.1) := by
  induction m with
  | nil => simp [alookup]
  | cons p rest ih =>
      obtain ⟨k0, v0⟩ := p
      by_cases h : k0 = k
      · subst h
        simp [alookup]
      · simp only [alookup, if_neg h, List.map_cons, List.mem_cons]
        rw [ih]
        constructor
        · intro hnk hor
          rcases hor with h1 | h2
          · exact h h1.symm
          · exact hnk h2
        · intro hnot hmem
          exact hnot (Or.inr hmem)

theorem pushOcc_fold_sep (pairs : List (String × String))
    (acc : List (String × List String)) (e : String)
    (hsep : isSeparator e = true) :
    alookup (pairs.foldl pushOcc acc) e = alookup acc e := by
  induction pairs generalizing acc with
  | nil => rfl
  | cons p rest ih =>
      rw [List.foldl_cons, ih]
      unfold pushOcc
      by_cases hp : isSeparator p.1
      · rw [if_pos hp]
      · rw [if_neg hp]
        have hne : e ≠ p.1 := fun h => hp (h ▸ hsep)
        cases hv : alookup acc p.1 with
        | none =>
            simp only [Option.elim_none]
            rw [alookup_append]
            have hp1e : ¬ (p.1 = e) := fun h => hne h.symm
            cases hae : alookup acc e with
            | none => simp [alookup, hp1e]
            | some gs => simp
        | some gs =>
            simp only [Option.elim_some]
            exact alookup_aset_other acc p.1 e _ hne

theorem pushOcc_fold_lookup (pairs : List (String × String))
    (acc : List (String × List String)) (e : String)
    (hnsep : isSeparator e = false) :
    alookup (pairs.foldl pushOcc acc) e =
      (alookup acc e).elim
        (if occOf pairs e = [] then none else some (occOf pairs e))
        (fun gs => some (gs ++ occOf pairs e)) := by
  induction pairs generalizing acc with
  | nil =>
      cases hae : alookup acc e <;> simp [occOf, hae]
  | cons p rest ih =>
      rw [List.foldl_cons, ih]
      by_cases hp : isSeparator p.1
      · have hne : p.1 ≠ e := fun h => by rw [h, hnsep] at hp; exact Bool.false_ne_true.elim hp
        have hocc : occOf (p :: rest) e = occOf rest e := by
          simp [occOf, List.filter_cons, hne]
        rw [hocc]
        unfold pushOcc
        rw [if_pos hp]
      · unfold pushOcc
        rw [if_neg hp]
        by_cases hpe : p.1 = e
        · subst hpe
          have hocc : occOf (p :: rest) p.1 = p.2 :: occOf rest p.1 := by
            simp [occOf, List.filter_cons]
          rw [hocc]
          cases hae : alookup acc p.1 with
          | none =>
              simp only [Option.elim_none]
              have h1 : alookup (acc ++ [(p.1, [p.2])]) p.1 = some [p.2] := by
                rw [alookup_append, hae]
                simp [alookup]
              rw [h1]
              simp
          | some gs =>
              simp only [Option.elim_some]
              rw [alookup_aset_self]
              simp
        · have hne : e ≠ p.1 := fun h => hpe h.symm
          have hocc : occOf (p :: rest) e = occOf rest e := by
            simp [occOf, List.filter_cons, hpe]
          rw [hocc]
          cases hae : alookup acc p.1 with
          | none =>
              simp only [Option.elim_none]
              have h1 : alookup (acc ++ [(p.1, [p.2])]) e = alookup acc e := by
                rw [alookup_append]
                cases h2 : alookup acc e <;> simp [alookup, hpe]
              rw [h1]
          | some gs =>
              simp only [Option.elim_some]
              rw [alookup_aset_other acc p.1 e _ hne]

theorem keys_aset {α : Type} (m : List (String × α)) (k : String) (v : α)
    (hk : (alookup m k).isSome) :
    (aset m k v).map (fun p => p.1) = m.map (fun p => p.1) := by
  induction m with
  | nil => simp [alookup] at hk
  | cons p rest ih =>
      by_cases h : p.1 = k
      · obtain ⟨k0, v0⟩ := p
        simp only at h
        subst h
        simp [aset]
      · obtain ⟨k0, v0⟩ := p
        simp only at h
        rw [alookup] at hk
        simp only [if_neg h] at hk
        simp [aset, h, ih hk]

theorem pushOcc_keys_nodup (pairs : List (String × String))
    (acc : List (String × List String))
    (hnd : (acc.map (fun p => p.1)).Nodup) :
    ((pairs.foldl pushOcc acc).map (fun p => p.1)).Nodup := by
  induction pairs generalizing acc with
  | nil => exact hnd
  | cons p rest ih =>
      rw [List.foldl_cons]
      apply ih
      unfold pushOcc
      by_cases hp : isSeparator p.1
      · rw [if_pos hp]; exact hnd
      · rw [if_neg hp]
        cases hv : alookup acc p.1 with
        | none =>
            simp only [Option.elim_none, List.map_append]
            rw [List.nodup_append]
            refine ⟨hnd, by simp, ?_⟩
            intro a ha hb
            simp at hb
            subst hb
            exact ((alookup_eq_none_iff acc p.1).mp hv) ha
        | some gs =>
            simp only [Option.elim_some]
            rw [keys_aset acc p.1 _ (by simp [hv])]
            exact hnd

theorem mem_iff_alookup {α : Type} (m : List (String × α)) (k : String) (v : α)
    (hnd : (m.map (fun p => p.1)).Nodup) :
    (k, v) ∈ m ↔ alookup m k = some v := by
  induction m with
  | nil => simp [alookup]
  | cons p rest ih =>
      obtain ⟨k0, v0⟩ := p
      rw [List.map_cons, List.nodup_cons] at hnd
      obtain ⟨hk0, hnd2⟩ := hnd
      by_cases h : k0 = k
      · subst h
        simp only [alookup, if_pos rfl, List.mem_cons, Prod.mk.injEq]
        constructor
        · rintro (⟨_, rfl⟩ | hmem)
          · rfl
          · exact absurd (List.mem_map.mpr ⟨(k0, v), hmem, rfl⟩) hk0
        · intro hv
          exact Or.inl ⟨by trivial, (Option.some.inj hv).symm⟩
      · simp only [alookup, if_neg h, List.mem_cons, Prod.mk.injEq]
        rw [ih hnd2]
        constructor
        · rintro (⟨rfl, _⟩ | hmem)
          · exact absurd rfl h
          · exact hmem
        · exact Or.inr

theorem elementToGroupsMap_lookup (groups : List GroupSpec) (e : String) :
    alookup (elementToGroupsMap groups) e =
      if isSeparator e then none
      else if occurrenceGroups groups e = [] then none
      else some (occurrenceGroups groups e) := by
  rw [elementToGroupsMap_eq_foldl]
  cases hsep : isSeparator e with
  | true =>
      rw [if_pos rfl]
      rw [pushOcc_fold_sep _ _ _ hsep]
      rfl
  | false =>
      rw [if_neg (by simp)]
      rw [pushOcc_fold_lookup _ _ _ hsep]
      rfl

theorem elementToGroupsMap_keys_nodup (groups : List GroupSpec) :
    ((elementToGroupsMap groups).map (fun p => p.1)).Nodup := by
  rw [elementToGroupsMap_eq_foldl]
  exact pushOcc_keys_nodup _ [] (by simp)

theorem mem_elementToGroupsMap (groups : List GroupSpec) (e : String)
    (gs : List String) :
    (e, gs) ∈ elementToGroupsMap groups ↔
      isSeparator e = false ∧ occurrenceGroups groups e ≠ [] ∧
        gs = occurrenceGroups groups e := by
  rw [mem_iff_alookup _ _ _ (elementToGroupsMap_keys_nodup groups),
    elementToGroupsMap_lookup]
  cases hsep : isSeparator e with
  | true => simp
  | false =>
      simp only [Bool.false_eq_true, if_false, true_and]
      by_cases hocc : occurrenceGroups groups e = []
      · simp [hocc]
      · simp only [if_neg hocc, Option.some.injEq]
        constructor
        · intro h; exact ⟨hocc, h.symm⟩
        · intro h; exact h.2.symm

/-- Claim C8 (amended): `_validate_unique_elements` accepts a spec if and
only if every non-separator element label occurs at most once in total
across all group element lists (counting multiplicity, so a label occurring
twice *within one group* is also rejected); on rejection the error payload
lists, for each offending label, the group name of every occurrence. -/
theorem C8_validate_unique_characterization (groups : List GroupSpec) :
    (validate_unique_elements groups = Except.ok () ↔
      ∀ e, isSeparator e = false → (occurrenceGroups groups e).length ≤ 1) ∧
    (∀ d, validate_unique_elements groups = Except.error d →
      ∀ e gs, (e, gs) ∈ d ↔
        isSeparator e = false ∧ gs = occurrenceGroups groups e ∧ 2 ≤ gs.length) := by
  have hmemdup : ∀ e gs,
      (e, gs) ∈ (elementToGroupsMap groups).filter (fun p => p.2.length > 1) ↔
        isSeparator e = false ∧ gs = occurrenceGroups groups e ∧ 2 ≤ gs.length := by
    intro e gs
    rw [List.mem_filter, mem_elementToGroupsMap]
    constructor
    · rintro ⟨⟨hsep, _, rfl⟩, hlen⟩
      exact ⟨hsep, rfl, by simpa using hlen⟩
    · rintro ⟨hsep, rfl, hlen⟩
      refine ⟨⟨hsep, ?_, rfl⟩, by simpa using hlen⟩
      intro hnil
      rw [hnil] at hlen
      simp at hlen

  constructor
  · unfold validate_unique_elements
    by_cases hdups : ((elementToGroupsMap groups).filter (fun p => p.2.length > 1)).isEmpty
    · rw [if_pos hdups]
      simp only [true_iff]
      intro e hsep
      by_contra hlen
      push_neg at hlen
      have hmem := (hmemdup e (occurrenceGroups groups e)).mpr ⟨hsep, rfl, hlen⟩
      rw [List.isEmpty_iff] at hdups
      rw [hdups] at hmem
      exact absurd hmem (List.not_mem_nil _)
    · rw [if_neg hdups]
      constructor
      · intro h
        exact absurd h (by simp)
      · intro hall
        exfalso
        apply hdups
        rw [List.isEmpty_iff, List.eq_nil_iff_forall_not_mem]
        rintro ⟨e, gs⟩ hmem
        obtain ⟨hsep, rfl, hlen⟩ := (hmemdup e gs).mp hmem
        exact absurd (hall e hsep) (by omega)
  · intro d herr
    unfold validate_unique_elements at herr
    by_cases hdups : ((elementToGroupsMap groups).filter (fun p => p.2.length > 1)).isEmpty
    · rw [if_pos hdups] at herr
      exact absurd herr (by simp)
    · rw [if_neg hdups] at herr
      have hd := Except.error.inj herr
      subst hd
      exact hmemdup

/-- Claim C8 witness: the amended characterization applied to the
one-group spec `[A A]`, whose validation error names `group_0` once per
occurrence of `A`. -/
theorem C8_witness :
    ("A", ["group_0", "group_0"]) ∈ [("A", ["group_0", "group_0"])] ↔
      isSeparator "A" = false ∧
        ["group_0", "group_0"] =
          occurrenceGroups [⟨"group_0", some ["A", "A"], false⟩] "A" ∧
        2 ≤ (["group_0", "group_0"] : List String).length := by
  exact (C8_validate_unique_characterization
      [⟨"group_0", some ["A", "A"], false⟩]).2
    [("A", ["group_0", "group_0"])]
    (by simp [validate_unique_elements, elementToGroupsMap, groupElements,
      isSeparator, alookup, aset])
    "A" ["group_0", "group_0"]

/-- Claim C8 counterexample: a spec whose single group repeats the label
`"A"` contains no element appearing in more than one group, yet the
validation rejects it (the occurrence list `["group_0", "group_0"]` has
length 2). -/
theorem C8_counterexample :
    validate_unique_elements [⟨"group_0", some ["A", "A"], false⟩] =
      Except.error [("A", ["group_0", "group_0"])] ∧
    ([⟨"group_0", some ["A", "A"], false⟩].filter
      (fun g => declaresElement g "A")).length = 1 := by
  constructor
  · simp [validate_unique_elements, elementToGroupsMap, groupElements, isSeparator,
      alookup, aset]
  · simp [declaresElement]

/-! ## Claim C4 — row wrapping and the row-width bound -/

theorem rowSpan_append_single (w b : ℚ) (g2g : List (String × GroupSpec))
    (cur : List String) (g : String) :
    rowSpan w b g2g (cur ++ [g]) =
      (if cur.isEmpty then 0 else rowSpan w b g2g cur + b) + groupWidth w g2g g := by
  induction cur with
  | nil => simp [rowSpan]
  | cons x cur2 ih =>
      cases cur2 with
      | nil => simp [rowSpan]
      | cons y t =>
          have h1 : rowSpan w b g2g (x :: y :: (t ++ [g])) =
              groupWidth w g2g x + b + rowSpan w b g2g (y :: (t ++ [g])) := rfl
          have h2 : rowSpan w b g2g (x :: y :: t) =
              groupWidth w g2g x + b + rowSpan w b g2g (y :: t) := rfl
          have ih2 := ih
          simp only [List.cons_append] at ih2 ⊢
          rw [h1, ih2, h2]
          simp only [List.isEmpty_cons, Bool.false_eq_true, if_false]
          ring

theorem splitGroupsGo_spec (w b maxX : ℚ) (g2g : List (String × GroupSpec)) :
    ∀ (rest cur : List String) (curX : ℚ),
      curX = rowSpan w b g2g cur →
      (2 ≤ cur.length → curX ≤ maxX) →
      (splitGroupsGo w b maxX g2g rest cur curX).flatten = cur ++ rest ∧
      (∀ row ∈ splitGroupsGo w b maxX g2g rest cur curX,
        row ≠ [] ∧ (2 ≤ row.length → rowSpan w b g2g row ≤ maxX)) := by
  intro rest
  induction rest with
  | nil =>
      intro cur curX hspan hbound
      cases cur with
      | nil => simp [splitGroupsGo]
      | cons x t =>
          constructor
          · simp [splitGroupsGo]
          · intro row hrow
            simp only [splitGroupsGo, List.isEmpty_cons] at hrow
            simp only [Bool.false_eq_true, if_false, List.mem_singleton] at hrow
            subst hrow
            exact ⟨by simp, fun h2 => hspan ▸ hbound h2⟩
  | cons g grest ih =>
      intro cur curX hspan hbound
      unfold splitGroupsGo
      by_cases hcond : ¬ cur.isEmpty = true ∧ curX + b + groupWidth w g2g g > maxX
      · rw [if_pos hcond]
        have hg : groupWidth w g2g g = rowSpan w b g2g [g] := by simp [rowSpan]
        obtain ⟨hjoin, hrows⟩ := ih [g] (groupWidth w g2g g) hg (by simp)
        constructor
        · rw [List.flatten_cons, hjoin]
          rfl
        · intro row hrow
          rcases List.mem_cons.mp hrow with rfl | hmem
          · refine ⟨?_, fun h2 => hspan ▸ hbound h2⟩
            intro hnil
            rw [hnil] at hcond
            exact hcond.1 rfl
          · exact hrows row hmem
      · rw [if_neg hcond]
        have hnew : (if cur.isEmpty then curX else curX + b) + groupWidth w g2g g =
            rowSpan w b g2g (cur ++ [g]) := by
          rw [rowSpan_append_single]
          cases hc : cur.isEmpty with
          | true =>
              have : cur = [] := by
                cases cur with
                | nil => rfl
                | cons a t => simp at hc
              subst this
              simp only [if_pos rfl]
              rw [hspan]
              simp [rowSpan]
          | false => simp [hspan]
        have hnbound : 2 ≤ (cur ++ [g]).length →
            (if cur.isEmpty then curX else curX + b) + groupWidth w g2g g ≤ maxX := by
          intro hlen
          push_neg at hcond
          cases hc : cur.isEmpty with
          | true =>
              have : cur = [] := by
                cases cur with
                | nil => rfl
                | cons a t => simp at hc
              subst this
              simp at hlen
          | false =>
              have hle := hcond (by simp [hc])
              simp only [hc, Bool.false_eq_true, if_false]
              linarith
        obtain ⟨hjoin, hrows⟩ := ih (cur ++ [g])
          ((if cur.isEmpty then curX else curX + b) + groupWidth w g2g g)
          hnew hnbound
        constructor
        · rw [hjoin]
          simp
        · exact hrows

/-- C4 (amended): `_split_groups_into_rows` closes the current row exactly
when adding the next group's width plus spacing would exceed the maximum:
the produced rows concatenate back to the input and every row with at
least two groups has total span at most the maximum, while a row
consisting of a *single* group has that group's own width as span, which
may exceed the maximum (see the counterexample).  The claimed follow-up —
"a new row is started at the same logical layer, one y-unit further" —
never executes: on any nonempty group list the row-placement loop raises
`TypeError`, because both call sites pass the keyword argument
`force_sequential=True`, which `RowPlacer.place_groups_on_row` does not
accept. -/
theorem C4_row_wrap (w b maxX : ℚ) (g2g : List (String × GroupSpec))
    (groups : List String) :
    (split_groups_into_rows w b maxX g2g groups).flatten = groups ∧
    (∀ row ∈ split_groups_into_rows w b maxX g2g groups,
      row ≠ [] ∧ (2 ≤ row.length → rowSpan w b g2g row ≤ maxX)) ∧
    (groups ≠ [] → ∀ st : Levels × Positions × NodePositions,
      placeLayerRows (split_groups_into_rows w b maxX g2g groups) st =
        Except.error
          "TypeError: place_groups_on_row got an unexpected keyword argument force_sequential") := by
  obtain ⟨hjoin, hrows⟩ := splitGroupsGo_spec w b maxX g2g groups [] 0
    (by simp [rowSpan]) (by simp)
  have hflat : (split_groups_into_rows w b maxX g2g groups).flatten = groups := by
    simpa using hjoin
  refine ⟨hflat, hrows, ?_⟩
  intro hne st
  cases hsplit : split_groups_into_rows w b maxX g2g groups with
  | nil =>
      rw [hsplit] at hflat
      simp only [List.flatten_nil] at hflat
      exact absurd hflat.symm hne
  | cons r rest => rfl

/-- Claim C4 witness: two singleton groups form one row (span `2.6`, within
the bound, concatenating back to the input), and the subsequent placement
of the split rows raises the `TypeError` instead of placing anything. -/
theorem C4_witness :
    ((split_groups_into_rows WITHIN_GROUP_SPACING BETWEEN_GROUP_SPACING
        MAX_X_POSITION [("A", ⟨"A", none, false⟩), ("B", ⟨"B", none, false⟩)]
        ["A", "B"]).flatten = ["A", "B"]) ∧
    placeLayerRows (split_groups_into_rows WITHIN_GROUP_SPACING
        BETWEEN_GROUP_SPACING MAX_X_POSITION
        [("A", ⟨"A", none, false⟩), ("B", ⟨"B", none, false⟩)] ["A", "B"])
        ([], [], []) =
      Except.error
        "TypeError: place_groups_on_row got an unexpected keyword argument force_sequential" := by
  constructor
  · exact (C4_row_wrap WITHIN_GROUP_SPACING BETWEEN_GROUP_SPACING MAX_X_POSITION
      [("A", ⟨"A", none, false⟩), ("B", ⟨"B", none, false⟩)] ["A", "B"]).1
  · exact (C4_row_wrap WITHIN_GROUP_SPACING BETWEEN_GROUP_SPACING MAX_X_POSITION
      [("A", ⟨"A", none, false⟩), ("B", ⟨"B", none, false⟩)] ["A", "B"]).2.2
      (by simp) ([], [], [])

/-- Claim C4 counterexample: a single 18-element group is kept as one row
whose total span `42.5` exceeds `MAX_X_POSITION = 40`, so the row-width
bound of the claim fails. -/
theorem C4_counterexample :
    split_groups_into_rows WITHIN_GROUP_SPACING BETWEEN_GROUP_SPACING
      MAX_X_POSITION [("G", c4WideGroup)] ["G"] = [["G"]] ∧
    rowSpan WITHIN_GROUP_SPACING BETWEEN_GROUP_SPACING
      [("G", c4WideGroup)] ["G"] = 85/2 ∧
    ¬ ((85 : ℚ)/2 ≤ MAX_X_POSITION) := by
  refine ⟨?_, ?_, by norm_num [MAX_X_POSITION]⟩
  · norm_num [split_groups_into_rows, splitGroupsGo, groupWidth, c4WideGroup,
      alookup, WITHIN_GROUP_SPACING, BETWEEN_GROUP_SPACING, MAX_X_POSITION]
  · norm_num [rowSpan, groupWidth, c4WideGroup, alookup, WITHIN_GROUP_SPACING]

/-! ## Claim C2 — layer relaxation on a dependency cycle -/

theorem relaxPass_cycle_changed (L : String → ℕ) :
    (relaxPass id [("A", ["B"]), ("B", ["A"])] L).2 = true := by
  unfold relaxPass relaxEntry relaxLink
  simp only [List.foldl_cons, List.foldl_nil, id_eq]
  by_cases h1 : L "B" ≤ L "A"
  · rw [if_pos h1]
    have hle : L "A" ≤ L "A" + 1 := Nat.le_succ _
    simp [Function.update_apply, hle]
  · rw [if_neg h1]
    simp only
    have h2 : L "A" ≤ L "B" := Nat.le_of_lt (Nat.lt_of_not_le h1)
    rw [if_pos h2]

/-- Claim C2: on the cyclic input `A -> B`, `B -> A` (each element its own
group), every pass of the fixed-point relaxation of
`compute_layout_bottom_up_arrow_aware` sets the `changed` flag, so the
`while changed:` loop never terminates — no amount of fuel makes
`relaxLoop` return a layer assignment, and in particular the unresolved
cyclic groups are never assigned layer 0 and returned. -/
theorem C2_relaxation_diverges_on_cycle :
    ∀ (fuel : ℕ) (L : String → ℕ),
      relaxLoop id [("A", ["B"]), ("B", ["A"])] fuel L = none := by
  intro fuel
  induction fuel with
  | zero => intro L; rfl
  | succ n ih =>
      intro L
      show (let st := relaxPass id [("A", ["B"]), ("B", ["A"])] L;
        if st.2 then relaxLoop id [("A", ["B"]), ("B", ["A"])] n st.1
        else some st.1) = none
      simp only
      rw [relaxPass_cycle_changed L]
      simp only [if_true]
      exact ih _

/-! ## Claim C5 — iterative conflict resolution loop -/

/-- Claim C5 (amended): the resolution loop runs at most `max_iterations`
passes (the trace of per-iteration conflict totals never exceeds the
budget), stops immediately when the total conflict count is zero, and
stops when an iteration resolves nothing (no group is moved); there is no
oscillation guard of any kind. -/
theorem C5_resolution_loop_behavior (cfg : ResolveConfig) :
    (∀ st, resolve_conflicts_iteratively cfg 0 st = (st, [])) ∧
    (∀ n st,
      (detectState cfg st).1.length + (detectState cfg st).2.1.length +
          (detectState cfg st).2.2.length = 0 →
      resolve_conflicts_iteratively cfg (n + 1) st = (st, [0])) ∧
    (∀ n st,
      attempt_conflict_resolution cfg.w (detectState cfg st).1 st.positions
          st.np cfg.g2g = none →
      resolve_conflicts_iteratively cfg (n + 1) st =
        (st, [(detectState cfg st).1.length + (detectState cfg st).2.1.length +
          (detectState cfg st).2.2.length])) ∧
    (∀ n st, (resolve_conflicts_iteratively cfg n st).2.length ≤ n) := by
  refine ⟨fun st => rfl, ?_, ?_, ?_⟩
  · intro n st h
    unfold resolve_conflicts_iteratively
    rw [if_pos h, h]
  · intro n st h
    unfold resolve_conflicts_iteratively
    by_cases h0 : (detectState cfg st).1.length + (detectState cfg st).2.1.length +
        (detectState cfg st).2.2.length = 0
    · rw [if_pos h0, h0]
    · rw [if_neg h0, h]
      rfl
  · intro n
    induction n with
    | zero => intro st; simp [resolve_conflicts_iteratively]
    | succ m ih =>
        intro st
        unfold resolve_conflicts_iteratively
        by_cases h0 : (detectState cfg st).1.length +
            (detectState cfg st).2.1.length + (detectState cfg st).2.2.length = 0
        · rw [if_pos h0]
          simp
        · rw [if_neg h0]
          cases hatt : attempt_conflict_resolution cfg.w (detectState cfg st).1
              st.positions st.np cfg.g2g with
          | none => simp
          | some pr =>
              simp only [Option.elim_some, List.length_cons]
              exact Nat.succ_le_succ (ih _)

/-- Claim C5 witness: with no elements and no links the first iteration
detects zero conflicts and the loop stops at once, returning the state
unchanged with trace `[0]`. -/
theorem C5_witness :
    resolve_conflicts_iteratively ⟨5/2, [], [], [], []⟩ 10
      ⟨[], [], []⟩ = (⟨[], [], []⟩, [0]) := by
  have h := (C5_resolution_loop_behavior ⟨5/2, [], [], [], []⟩).2.1 9 ⟨[], [], []⟩
    (by simp [detectState, detect_all_conflicts, build_position_lookup,
      adjustUnderlinePositions, build_arrow_list, check_text_overlaps,
      check_arrow_crossings, check_arrow_through_text, orderedPairs])
  exact h

/-- One non-final iteration of the resolution loop, given the detected
conflicts and a successful resolution step. -/
theorem resolve_step (cfg : ResolveConfig) (n : ℕ) (st st2 : ResolveState)
    (tov : List (String × ℚ × ℚ × String × ℚ × ℚ))
    (ac : List (String × String × String × String × ℚ × ℚ))
    (att : List (String × String × String × ℚ × ℚ))
    (hdet : detectState cfg st = (tov, ac, att))
    (hne : ¬ (tov.length + ac.length + att.length = 0))
    (hatt : attempt_conflict_resolution cfg.w tov st.positions st.np cfg.g2g =
      some (st2.positions, st2.np))
    (hlv : st2.levels = st.levels) :
    resolve_conflicts_iteratively cfg (n + 1) st =
      ((resolve_conflicts_iteratively cfg n st2).1,
        (tov.length + ac.length + att.length) ::
          (resolve_conflicts_iteratively cfg n st2).2) := by
  conv_lhs => rw [resolve_conflicts_iteratively]
  simp only
  rw [hdet]
  simp only
  rw [if_neg hne, hatt]
  simp only [Option.elim_some]
  have hst : (⟨st2.np, st.levels, st2.positions⟩ : ResolveState) = st2 := by
    rw [← hlv]
  rw [hst]

/-- A final iteration of the resolution loop: zero conflicts stop it. -/
theorem resolve_stop_zero (cfg : ResolveConfig) (n : ℕ) (st : ResolveState)
    (hdet : detectState cfg st = ([], [], [])) :
    resolve_conflicts_iteratively cfg (n + 1) st = (st, [0]) := by
  unfold resolve_conflicts_iteratively
  simp only
  rw [hdet]
  simp

/-- Claim C5 counterexample: the per-iteration conflict totals are
`[1, 2, 1, 0]` — from iteration 1 to iteration 2 the total *doubles*
(2 > 1 + 50%), yet resolution does not abort: two further iterations run
and group `GA` ends at x = 3 after three shifts.  No oscillation guard
exists in the code. -/
theorem C5_counterexample :
    (resolve_conflicts_iteratively c5cfg 10 c5st).2 = [1, 2, 1, 0] ∧
    alookup (resolve_conflicts_iteratively c5cfg 10 c5st).1.positions "GA" =
      some (3, ["A"]) ∧
    (2 : ℚ) > 1 + 1/2 * 1 := by
  have hdet0 : detectState c5cfg c5st = ([("A", 0, 0, "B", 1/2, 0)], [], []) := by
    norm_num [c5cfg, c5st, c5g2g, detectState, detect_all_conflicts,
      build_position_lookup, adjustUnderlinePositions, build_arrow_list,
      check_text_overlaps, check_arrow_crossings, check_arrow_through_text,
      orderedPairs, textOverlapCond_iff, TEXT_WIDTH, alookup,
      filterMap_cons_toList, abs_sub_lt_iff]
  have hatt0 : attempt_conflict_resolution c5cfg.w [("A", 0, 0, "B", 1/2, 0)]
      c5st.positions c5st.np c5cfg.g2g = some (c5st1.positions, c5st1.np) := by
    norm_num [c5cfg, c5st, c5st1, c5g2g, attempt_conflict_resolution,
      resolve_text_overlaps, find_group_for_element,
      resolver_shift_group_horizontally, alookup, aset, List.enumFrom]
  have h1 := resolve_step c5cfg 9 c5st c5st1 _ _ _ hdet0 (by norm_num) hatt0
    (by rfl)
  have hdet1 : detectState c5cfg c5st1 =
      ([("A", 1, 0, "B", 1/2, 0), ("A", 1, 0, "C", 3/2, 0)], [], []) := by
    norm_num [c5cfg, c5st1, c5g2g, detectState, detect_all_conflicts,
      build_position_lookup, adjustUnderlinePositions, build_arrow_list,
      check_text_overlaps, check_arrow_crossings, check_arrow_through_text,
      orderedPairs, textOverlapCond_iff, TEXT_WIDTH, alookup,
      filterMap_cons_toList, abs_sub_lt_iff]
  have hatt1 : attempt_conflict_resolution c5cfg.w
      [("A", 1, 0, "B", 1/2, 0), ("A", 1, 0, "C", 3/2, 0)]
      c5st1.positions c5st1.np c5cfg.g2g = some (c5st2.positions, c5st2.np) := by
    norm_num [c5cfg, c5st1, c5st2, c5g2g, attempt_conflict_resolution,
      resolve_text_overlaps, find_group_for_element,
      resolver_shift_group_horizontally, alookup, aset, List.enumFrom]
  have h2 := resolve_step c5cfg 8 c5st1 c5st2 _ _ _ hdet1 (by norm_num) hatt1
    (by rfl)
  have hdet2 : detectState c5cfg c5st2 = ([("A", 2, 0, "C", 3/2, 0)], [], []) := by
    norm_num [c5cfg, c5st2, c5g2g, detectState, detect_all_conflicts,
      build_position_lookup, adjustUnderlinePositions, build_arrow_list,
      check_text_overlaps, check_arrow_crossings, check_arrow_through_text,
      orderedPairs, textOverlapCond_iff, TEXT_WIDTH, alookup,
      filterMap_cons_toList, abs_sub_lt_iff]
  have hatt2 : attempt_conflict_resolution c5cfg.w [("A", 2, 0, "C", 3/2, 0)]
      c5st2.positions c5st2.np c5cfg.g2g = some (c5st3.positions, c5st3.np) := by
    norm_num [c5cfg, c5st2, c5st3, c5g2g, attempt_conflict_resolution,
      resolve_text_overlaps, find_group_for_element,
      resolver_shift_group_horizontally, alookup, aset, List.enumFrom]
  have h3 := resolve_step c5cfg 7 c5st2 c5st3 _ _ _ hdet2 (by norm_num) hatt2
    (by rfl)
  have hdet3 : detectState c5cfg c5st3 = ([], [], []) := by
    norm_num [c5cfg, c5st3, c5g2g, detectState, detect_all_conflicts,
      build_position_lookup, adjustUnderlinePositions, build_arrow_list,
      check_text_overlaps, check_arrow_crossings, check_arrow_through_text,
      orderedPairs, textOverlapCond_iff, TEXT_WIDTH, alookup,
      filterMap_cons_toList, abs_sub_lt_iff]
  have h4 := resolve_stop_zero c5cfg 6 c5st3 hdet3
  rw [h1, h2, h3, h4]
  refine ⟨by norm_num, ?_, by norm_num⟩
  norm_num [c5st3, alookup]

/-! ## Claim C3 — per-layer ordering search -/

theorem selections_perm {α : Type} :
    ∀ (l : List α) (p : α × List α), p ∈ selections l → List.Perm (p.1 :: p.2) l := by
  intro l
  induction l with
  | nil => intro p hp; simp [selections] at hp
  | cons x xs ih =>
      intro p hp
      simp only [selections, List.mem_cons, List.mem_map] at hp
      rcases hp with h | ⟨q, hq, rfl⟩
      · subst h; exact List.Perm.refl _
      · have h1 := ih q hq
        exact (List.Perm.swap x q.1 q.2).trans (h1.cons x)

theorem mem_selections {α : Type} [DecidableEq α] :
    ∀ (l : List α) (x : α), x ∈ l → (x, l.erase x) ∈ selections l := by
  intro l
  induction l with
  | nil => intro x hx; simp at hx
  | cons y ys ih =>
      intro x hx
      by_cases hxy : y = x
      · subst hxy
        simp [selections, List.erase_cons_head]
      · have hmem : x ∈ ys := by
          rcases List.mem_cons.mp hx with h | h
          · exact absurd h.symm hxy
          · exact h
        have herase : (y :: ys).erase x = y :: ys.erase x := by
          simp [List.erase_cons, hxy]
        rw [herase]
        simp only [selections, List.mem_cons, List.mem_map]
        right
        exact ⟨(x, ys.erase x), ih x hmem, rfl⟩

theorem itPermsFuel_sound {α : Type} :
    ∀ (n : ℕ) (l q : List α), l.length ≤ n → q ∈ itPermsFuel n l → List.Perm q l := by
  intro n
  induction n with
  | zero =>
      intro l q hl hq
      have hnil : l = [] := List.length_eq_zero.mp (Nat.le_zero.mp hl)
      subst hnil
      simp [itPermsFuel] at hq
      subst hq
      exact List.Perm.refl _
  | succ n ih =>
      intro l q hl hq
      cases l with
      | nil =>
          simp [itPermsFuel] at hq
          subst hq
          exact List.Perm.refl _
      | cons x xs =>
          simp only [itPermsFuel, List.mem_flatMap, List.mem_map] at hq
          obtain ⟨p, hp, q', hq', rfl⟩ := hq
          have hperm := selections_perm (x :: xs) p hp
          have hlen : p.2.length ≤ n := by
            have hl2 := hperm.length_eq
            simp only [List.length_cons] at hl2 hl
            omega
          exact ((ih p.2 q' hlen hq').cons p.1).trans hperm

theorem itPermsFuel_complete {α : Type} [DecidableEq α] :
    ∀ (n : ℕ) (l q : List α), l.length ≤ n → List.Perm q l → q ∈ itPermsFuel n l := by
  intro n
  induction n with
  | zero =>
      intro l q hl hq
      have hnil : l = [] := List.length_eq_zero.mp (Nat.le_zero.mp hl)
      subst hnil
      have : q = [] := hq.eq_nil
      subst this
      simp [itPermsFuel]
  | succ n ih =>
      intro l q hl hq
      cases l with
      | nil =>
          have : q = [] := hq.eq_nil
          subst this
          simp [itPermsFuel]
      | cons x xs =>
          cases q with
          | nil =>
              have := hq.length_eq
              simp at this
          | cons a q' =>
              obtain ⟨ha, hq'⟩ := (List.cons_perm_iff_perm_erase).mp hq
              have hlen : ((x :: xs).erase a).length ≤ n := by
                rw [List.length_erase_of_mem ha]
                simp only [List.length_cons] at hl ⊢
                omega
              simp only [itPermsFuel, List.mem_flatMap, List.mem_map]
              exact ⟨(a, (x :: xs).erase a), mem_selections (x :: xs) a ha,
                q', ih ((x :: xs).erase a) q' hlen hq', rfl⟩

theorem itPerms_ne_nil {α : Type} [DecidableEq α] (l : List α) : itPerms l ≠ [] :=
  List.ne_nil_of_mem (itPermsFuel_complete l.length l l le_rfl (List.Perm.refl l))

theorem selectLoop_go (ev : List String → ℕ) :
    ∀ (rest : List (List String)) (bp : List String) (bm : ℕ), bm = ev bp →
    ∃ p m, selectLoop ev rest (some (bp, bm)) = some (p, m) ∧ m = ev p ∧ m ≤ bm ∧
      (∀ q ∈ rest, m ≤ ev q) ∧
      (p = bp ∨ (m < bm ∧ ∃ l₁ l₂, rest = l₁ ++ p :: l₂ ∧ ∀ q ∈ l₁, m < ev q)) := by
  intro rest
  induction rest with
  | nil =>
      intro bp bm hbm
      exact ⟨bp, bm, rfl, hbm, le_rfl, by simp, Or.inl rfl⟩
  | cons x rest ih =>
      intro bp bm hbm
      by_cases hlt : ev x < bm
      · by_cases h0 : ev x = 0
        · refine ⟨x, ev x, ?_, rfl, le_of_lt hlt, ?_, Or.inr ⟨hlt, [], rest, rfl, by simp⟩⟩
          · have hlt0 : 0 < bm := by omega
            simp [selectLoop, h0, hlt0]
          · intro q hq; simp [h0]
        · have hstep : selectLoop ev (x :: rest) (some (bp, bm))
              = selectLoop ev rest (some (x, ev x)) := by
            simp [selectLoop, hlt, h0]
          obtain ⟨p, m, hres, hm, hle, hall, hcase⟩ := ih x (ev x) rfl
          have hmbm : m < bm := lt_of_le_of_lt hle hlt
          refine ⟨p, m, by rw [hstep]; exact hres, hm, le_of_lt hmbm, ?_, ?_⟩
          · intro q hq
            rcases List.mem_cons.mp hq with rfl | hq'
            · exact hle
            · exact hall q hq'
          · right
            refine ⟨hmbm, ?_⟩
            rcases hcase with rfl | ⟨hml, l₁, l₂, hsplit, hl₁⟩
            · exact ⟨[], rest, rfl, by simp⟩
            · refine ⟨x :: l₁, l₂, by simp [hsplit], ?_⟩
              intro q hq
              rcases List.mem_cons.mp hq with rfl | hq'
              · exact hml
              · exact hl₁ q hq'
      · have hstep : selectLoop ev (x :: rest) (some (bp, bm))
            = selectLoop ev rest (some (bp, bm)) := by
          simp [selectLoop, hlt]
        obtain ⟨p, m, hres, hm, hle, hall, hcase⟩ := ih bp bm hbm
        refine ⟨p, m, by rw [hstep]; exact hres, hm, hle, ?_, ?_⟩
        · intro q hq
          rcases List.mem_cons.mp hq with rfl | hq'
          · exact le_trans hle (not_lt.mp hlt)
          · exact hall q hq'
        · rcases hcase with rfl | ⟨hml, l₁, l₂, hsplit, hl₁⟩
          · exact Or.inl rfl
          · right
            refine ⟨hml, x :: l₁, l₂, by simp [hsplit], ?_⟩
            intro q hq
            rcases List.mem_cons.mp hq with rfl | hq'
            · exact lt_of_lt_of_le hml (not_lt.mp hlt)
            · exact hl₁ q hq'

theorem selectLoop_none (ev : List String → ℕ) (perms : List (List String))
    (hne : perms ≠ []) :
    ∃ p m, selectLoop ev perms none = some (p, m) ∧ m = ev p ∧
      (∀ q ∈ perms, m ≤ ev q) ∧
      ∃ l₁ l₂, perms = l₁ ++ p :: l₂ ∧ ∀ q ∈ l₁, m < ev q := by
  cases perms with
  | nil => exact absurd rfl hne
  | cons x rest =>
      by_cases h0 : ev x = 0
      · refine ⟨x, ev x, ?_, rfl, ?_, [], rest, rfl, by simp⟩
        · simp [selectLoop, h0]
        · intro q hq; simp [h0]
      · have hstep : selectLoop ev (x :: rest) none
            = selectLoop ev rest (some (x, ev x)) := by
          simp [selectLoop, h0]
        obtain ⟨p, m, hres, hm, hle, hall, hcase⟩ := selectLoop_go ev rest x (ev x) rfl
        refine ⟨p, m, by rw [hstep]; exact hres, hm, ?_, ?_⟩
        · intro q hq
          rcases List.mem_cons.mp hq with rfl | hq'
          · exact hle
          · exact hall q hq'
        · rcases hcase with rfl | ⟨hml, l₁, l₂, hsplit, hl₁⟩
          · exact ⟨[], rest, rfl, by simp⟩
          · refine ⟨x :: l₁, l₂, by simp [hsplit], ?_⟩
            intro q hq
            rcases List.mem_cons.mp hq with rfl | hq'
            · exact hml
            · exact hl₁ q hq'

theorem chooseOrdering_of_gt_eight (w b : ℚ) (g2g : List (String × GroupSpec))
    (y : ℚ) (levels : Levels) (positions : Positions) (np : NodePositions)
    (outgoing : List (String × List String)) (layer : List String)
    (h8 : 8 < layer.length) :
    chooseOrdering w b g2g y levels positions np outgoing layer = layer := by
  have hperms : (if layer.length ≤ 8 then itPerms layer else [layer]) = [layer] :=
    if_neg (not_le.mpr h8)
  by_cases h0 : orderingCrossings w b g2g y levels positions np outgoing layer = 0
  · simp [chooseOrdering, hperms, selectLoop, h0]
  · simp [chooseOrdering, hperms, selectLoop, h0]

/-- C3: for a layer with at most 8 groups the chosen ordering is a
permutation of the layer whose simulated placement attains the minimum
arrow-crossing count over all permutations, ties broken by the first
permutation in `itertools.permutations` enumeration order (every earlier
permutation has strictly more crossings); for a layer with more than 8
groups the exhaustive search is skipped and the chosen ordering is the
layer's input order (not a sort by target x-position). -/
theorem C3_ordering_search (w b : ℚ) (g2g : List (String × GroupSpec)) (y : ℚ)
    (levels : Levels) (positions : Positions) (np : NodePositions)
    (outgoing : List (String × List String)) (layer : List String) :
    (layer.length ≤ 8 →
      List.Perm (chooseOrdering w b g2g y levels positions np outgoing layer) layer ∧
      (∀ q : List String, List.Perm q layer →
        orderingCrossings w b g2g y levels positions np outgoing
            (chooseOrdering w b g2g y levels positions np outgoing layer) ≤
          orderingCrossings w b g2g y levels positions np outgoing q) ∧
      (∃ l₁ l₂, itPerms layer =
          l₁ ++ (chooseOrdering w b g2g y levels positions np outgoing layer) :: l₂ ∧
        ∀ q ∈ l₁, orderingCrossings w b g2g y levels positions np outgoing
            (chooseOrdering w b g2g y levels positions np outgoing layer) <
          orderingCrossings w b g2g y levels positions np outgoing q)) ∧
    (8 < layer.length →
      chooseOrdering w b g2g y levels positions np outgoing layer = layer) := by
  constructor
  · intro h8
    obtain ⟨p, m, hres, hm, hall, l₁, l₂, hsplit, hl₁⟩ :=
      selectLoop_none (orderingCrossings w b g2g y levels positions np outgoing)
        (itPerms layer) (itPerms_ne_nil layer)
    have hchosen : chooseOrdering w b g2g y levels positions np outgoing layer = p := by
      simp only [chooseOrdering]
      rw [if_pos h8, hres]
      rfl
    refine ⟨?_, ?_, ?_⟩
    · rw [hchosen]
      have hpmem : p ∈ itPerms layer := by
        rw [hsplit]
        exact List.mem_append_right _ (List.mem_cons_self p l₂)
      exact itPermsFuel_sound layer.length layer p le_rfl hpmem
    · intro q hq
      rw [hchosen, ← hm]
      exact hall q (itPermsFuel_complete layer.length layer q le_rfl hq)
    · refine ⟨l₁, l₂, ?_, ?_⟩
      · rw [hchosen]; exact hsplit
      · intro q hq
        rw [hchosen, ← hm]
        exact hl₁ q hq
  · exact chooseOrdering_of_gt_eight w b g2g y levels positions np outgoing layer

theorem C3_witness :
    List.Perm (chooseOrdering 2 3 [] 0 [] [] [] [] ["a", "b"]) ["a", "b"] ∧
    chooseOrdering 2 3 [] 0 [] [] [] []
        ["a", "b", "c", "d", "e", "f", "g", "h", "i"] =
      ["a", "b", "c", "d", "e", "f", "g", "h", "i"] :=
  ⟨((C3_ordering_search 2 3 [] 0 [] [] [] [] ["a", "b"]).1 (by decide)).1,
   (C3_ordering_search 2 3 [] 0 [] [] [] []
      ["a", "b", "c", "d", "e", "f", "g", "h", "i"]).2 (by decide)⟩

theorem C3_counterexample :
    chooseOrdering 2 3 c3g2g 2 [] [] c3np c3out c3layer = c3layer ∧
    compute_median_target_x c3g2g c3out c3np "g9" = 9 ∧
    compute_median_target_x c3g2g c3out c3np "g8" = 8 ∧
    ¬ List.Pairwise (fun g h' =>
        compute_median_target_x c3g2g c3out c3np g ≤
          compute_median_target_x c3g2g c3out c3np h')
      (chooseOrdering 2 3 c3g2g 2 [] [] c3np c3out c3layer) := by
  have hch : chooseOrdering 2 3 c3g2g 2 [] [] c3np c3out c3layer = c3layer :=
    chooseOrdering_of_gt_eight 2 3 c3g2g 2 [] [] c3np c3out c3layer (by simp [c3layer])
  have h9 : compute_median_target_x c3g2g c3out c3np "g9" = 9 := by
    simp [compute_median_target_x, c3g2g, c3out, c3np, c3layer, alookup]
  have h8 : compute_median_target_x c3g2g c3out c3np "g8" = 8 := by
    simp [compute_median_target_x, c3g2g, c3out, c3np, c3layer, alookup]
  refine ⟨hch, h9, h8, ?_⟩
  intro hp
  rw [hch] at hp
  simp only [c3layer] at hp
  have hle := (List.pairwise_cons.mp hp).1 "g8" (by simp)
  rw [h9, h8] at hle
  norm_num at hle

/-! ## Claim C7 — arrow-crossing geometry -/

theorem segments_intersect_iff (x1 y1 x2 y2 x3 y3 x4 y4 : ℚ) :
    segments_intersect x1 y1 x2 y2 x3 y3 x4 y4 = true ↔
      (¬(((y4 - y1) * (x3 - x1) > (y3 - y1) * (x4 - x1)) ↔
         ((y4 - y2) * (x3 - x2) > (y3 - y2) * (x4 - x2))) ∧
       ¬(((y3 - y1) * (x2 - x1) > (y2 - y1) * (x3 - x1)) ↔
         ((y4 - y1) * (x2 - x1) > (y2 - y1) * (x4 - x1)))) := by
  simp [segments_intersect, ccw, bne, Bool.and_eq_true, decide_eq_decide]

/-- If the straddle test `N > 0 xor N - D > 0` holds then `N / D` lies in
`[0, 1]`. -/
theorem param_range (N D : ℚ) (h : ¬((N > 0) ↔ (N - D > 0))) :
    0 ≤ N / D ∧ N / D ≤ 1 := by
  by_cases h1 : N > 0
  · have h2 : N - D ≤ 0 := by
      by_contra hc
      exact h ⟨fun _ => lt_of_not_le hc, fun _ => h1⟩
    have hDpos : 0 < D := by linarith
    exact ⟨div_nonneg (le_of_lt h1) (le_of_lt hDpos), (div_le_one hDpos).mpr (by linarith)⟩
  · have h2 : N - D > 0 := by
      by_contra hc
      exact h ⟨fun hN => absurd hN h1, fun hc2 => absurd hc2 hc⟩
    have hN : N ≤ 0 := le_of_not_lt h1
    have hDneg : D < 0 := by linarith
    have hrw : N / D = (-N) / (-D) := by rw [neg_div_neg_eq]
    rw [hrw]
    have hnDpos : 0 < -D := by linarith
    exact ⟨div_nonneg (by linarith) (le_of_lt hnDpos), (div_le_one hnDpos).mpr (by linarith)⟩

/-- If the straddle test `N > 0 xor N + D > 0` holds then `-N / D` lies in
`[0, 1]`. -/
theorem param_range_neg (N D : ℚ) (h : ¬((N > 0) ↔ (N + D > 0))) :
    0 ≤ -N / D ∧ -N / D ≤ 1 := by
  by_cases h1 : N > 0
  · have h2 : N + D ≤ 0 := by
      by_contra hc
      exact h ⟨fun _ => lt_of_not_le hc, fun _ => h1⟩
    have hDneg : D < 0 := by linarith
    have hrw : -N / D = N / (-D) := by rw [neg_div, ← div_neg]
    rw [hrw]
    have hnDpos : 0 < -D := by linarith
    exact ⟨div_nonneg (by linarith) (le_of_lt hnDpos), (div_le_one hnDpos).mpr (by linarith)⟩
  · have h2 : N + D > 0 := by
      by_contra hc
      exact h ⟨fun hN => absurd hN h1, fun hc2 => absurd hc2 hc⟩
    have hN : N ≤ 0 := le_of_not_lt h1
    have hDpos : 0 < D := by linarith
    exact ⟨div_nonneg (by linarith) (le_of_lt hDpos), (div_le_one hDpos).mpr (by linarith)⟩

/-- The Cramer parameters solve the segment-intersection system: the point
at parameter `N1 / D` on segment 1 equals the point at parameter `-N3 / D`
on segment 2. -/
theorem cramer_point (x1 y1 x2 y2 x3 y3 x4 y4 : ℚ)
    (hD : (x1 - x2) * (y3 - y4) - (y1 - y2) * (x3 - x4) ≠ 0) :
    x1 + (((x1 - x3) * (y3 - y4) - (y1 - y3) * (x3 - x4)) /
          ((x1 - x2) * (y3 - y4) - (y1 - y2) * (x3 - x4))) * (x2 - x1) =
      x3 + (-(((x2 - x1) * (y3 - y1) - (y2 - y1) * (x3 - x1))) /
          ((x1 - x2) * (y3 - y4) - (y1 - y2) * (x3 - x4))) * (x4 - x3) ∧
    y1 + (((x1 - x3) * (y3 - y4) - (y1 - y3) * (x3 - x4)) /
          ((x1 - x2) * (y3 - y4) - (y1 - y2) * (x3 - x4))) * (y2 - y1) =
      y3 + (-(((x2 - x1) * (y3 - y1) - (y2 - y1) * (x3 - x1))) /
          ((x1 - x2) * (y3 - y4) - (y1 - y2) * (x3 - x4))) * (y4 - y3) := by
  constructor <;> (field_simp; ring)

/-- Conversely, a common point at parameters `(s, t)` forces the Cramer
numerators: `N1 = s * D` and `N3 = -(t * D)`. -/
theorem param_crossing_values (x1 y1 x2 y2 x3 y3 x4 y4 s t : ℚ)
    (hx : x1 + s * (x2 - x1) = x3 + t * (x4 - x3))
    (hy : y1 + s * (y2 - y1) = y3 + t * (y4 - y3)) :
    (x1 - x3) * (y3 - y4) - (y1 - y3) * (x3 - x4) =
        s * ((x1 - x2) * (y3 - y4) - (y1 - y2) * (x3 - x4)) ∧
    (x2 - x1) * (y3 - y1) - (y2 - y1) * (x3 - x1) =
        -(t * ((x1 - x2) * (y3 - y4) - (y1 - y2) * (x3 - x4))) := by
  constructor
  · linear_combination (x4 - x3) * hy - (y4 - y3) * hx
  · linear_combination (y2 - y1) * hx - (x2 - x1) * hy


/-- A strict inequality is a positivity statement about the difference. -/
theorem ineq_shift (A B P : ℚ) (e : A - B = P) : (A > B) ↔ (0 < P) := by
  constructor <;> intro h <;> linarith

/-- The `ccw` double test rephrased with the Cramer numerator `N1`
(first conjunct) and `N3` (second conjunct) and denominator `D`. -/
theorem segments_intersect_param_iff (x1 y1 x2 y2 x3 y3 x4 y4 : ℚ) :
    segments_intersect x1 y1 x2 y2 x3 y3 x4 y4 = true ↔
      (¬((0 < (x1 - x3) * (y3 - y4) - (y1 - y3) * (x3 - x4)) ↔
         (0 < (x1 - x3) * (y3 - y4) - (y1 - y3) * (x3 - x4) -
            ((x1 - x2) * (y3 - y4) - (y1 - y2) * (x3 - x4)))) ∧
       ¬((0 < (x2 - x1) * (y3 - y1) - (y2 - y1) * (x3 - x1)) ↔
         (0 < (x2 - x1) * (y3 - y1) - (y2 - y1) * (x3 - x1) +
            ((x1 - x2) * (y3 - y4) - (y1 - y2) * (x3 - x4))))) := by
  rw [segments_intersect_iff]
  exact and_congr
    (not_congr (iff_congr (ineq_shift _ _ _ (by ring)) (ineq_shift _ _ _ (by ring))))
    (not_congr (iff_congr (ineq_shift _ _ _ (by ring)) (ineq_shift _ _ _ (by ring))))

/-- Soundness of the strict `ccw` test: when it passes and the determinant
is nonzero, the segments meet at parameters `s, t` in `[0, 1]` (not
necessarily in the open interval), with `s` given by the code formula. -/
theorem crossing_param_of_intersect (x1 y1 x2 y2 x3 y3 x4 y4 : ℚ)
    (hseg : segments_intersect x1 y1 x2 y2 x3 y3 x4 y4 = true)
    (hD : (x1 - x2) * (y3 - y4) - (y1 - y2) * (x3 - x4) ≠ 0) :
    ∃ s t : ℚ, 0 ≤ s ∧ s ≤ 1 ∧ 0 ≤ t ∧ t ≤ 1 ∧
      x1 + s * (x2 - x1) = x3 + t * (x4 - x3) ∧
      y1 + s * (y2 - y1) = y3 + t * (y4 - y3) ∧
      s = ((x1 - x3) * (y3 - y4) - (y1 - y3) * (x3 - x4)) /
          ((x1 - x2) * (y3 - y4) - (y1 - y2) * (x3 - x4)) := by
  obtain ⟨hI1, hI2⟩ := (segments_intersect_param_iff x1 y1 x2 y2 x3 y3 x4 y4).mp hseg
  have hr1 : ¬(((x1 - x3) * (y3 - y4) - (y1 - y3) * (x3 - x4) > 0) ↔
      ((x1 - x3) * (y3 - y4) - (y1 - y3) * (x3 - x4) -
        ((x1 - x2) * (y3 - y4) - (y1 - y2) * (x3 - x4)) > 0)) := hI1
  have hr2 : ¬(((x2 - x1) * (y3 - y1) - (y2 - y1) * (x3 - x1) > 0) ↔
      ((x2 - x1) * (y3 - y1) - (y2 - y1) * (x3 - x1) +
        ((x1 - x2) * (y3 - y4) - (y1 - y2) * (x3 - x4)) > 0)) := hI2
  obtain ⟨hs0, hs1⟩ := param_range _ _ hr1
  obtain ⟨ht0, ht1⟩ := param_range_neg _ _ hr2
  obtain ⟨hpx, hpy⟩ := cramer_point x1 y1 x2 y2 x3 y3 x4 y4 hD
  exact ⟨_, _, hs0, hs1, ht0, ht1, hpx, hpy, rfl⟩

/-- Completeness: a crossing at parameters strictly inside `(0, 1)` on both
segments passes the strict `ccw` test, and the code formula recovers `s`. -/
theorem intersect_of_interior_crossing (x1 y1 x2 y2 x3 y3 x4 y4 s t : ℚ)
    (hs0 : 0 < s) (hs1 : s < 1) (ht0 : 0 < t) (ht1 : t < 1)
    (hD : (x1 - x2) * (y3 - y4) - (y1 - y2) * (x3 - x4) ≠ 0)
    (hx : x1 + s * (x2 - x1) = x3 + t * (x4 - x3))
    (hy : y1 + s * (y2 - y1) = y3 + t * (y4 - y3)) :
    segments_intersect x1 y1 x2 y2 x3 y3 x4 y4 = true ∧
    ((x1 - x3) * (y3 - y4) - (y1 - y3) * (x3 - x4)) /
        ((x1 - x2) * (y3 - y4) - (y1 - y2) * (x3 - x4)) = s := by
  obtain ⟨hv1, hv3⟩ := param_crossing_values x1 y1 x2 y2 x3 y3 x4 y4 s t hx hy
  constructor
  · rw [segments_intersect_param_iff, hv1, hv3]
    rcases lt_or_gt_of_ne hD with hneg | hpos
    · constructor
      · intro hc
        have h2 : 0 < s * ((x1 - x2) * (y3 - y4) - (y1 - y2) * (x3 - x4)) -
            ((x1 - x2) * (y3 - y4) - (y1 - y2) * (x3 - x4)) := by nlinarith
        have h1 := hc.mpr h2
        nlinarith
      · intro hc
        have h1 : 0 < -(t * ((x1 - x2) * (y3 - y4) - (y1 - y2) * (x3 - x4))) := by nlinarith
        have h2 := hc.mp h1
        nlinarith
    · constructor
      · intro hc
        have h1 : 0 < s * ((x1 - x2) * (y3 - y4) - (y1 - y2) * (x3 - x4)) := by nlinarith
        have h2 := hc.mp h1
        nlinarith
      · intro hc
        have h2 : 0 < -(t * ((x1 - x2) * (y3 - y4) - (y1 - y2) * (x3 - x4))) +
            ((x1 - x2) * (y3 - y4) - (y1 - y2) * (x3 - x4)) := by nlinarith
        have h1 := hc.mpr h2
        nlinarith
  · rw [hv1, mul_div_assoc, div_self hD, mul_one]

/-- C7: `check_arrow_crossings` on a pair reports exactly `crossPair`;
soundness — a reported pair has all four endpoint names distinct,
determinant magnitude above `0.0001`, and the two segments share a point at
parameters `s, t ∈ [0, 1]` (closed, so endpoint touches are reported too),
the reported point being the point at parameter `s` on the first arrow;
completeness — every crossing at parameters strictly within `(0, 1)` with
distinct names and determinant magnitude above `0.0001` is reported with
its intersection point. -/
theorem C7_crossing_pair_characterization (a b : Arrow) :
    (check_arrow_crossings [a, b] = (crossPair a b).toList) ∧
    (∀ nm1 nm2 nm3 nm4 px py,
      crossPair a b = some (nm1, nm2, nm3, nm4, px, py) →
        nm1 = a.source ∧ nm2 = a.target ∧ nm3 = b.source ∧ nm4 = b.target ∧
        a.source ≠ b.source ∧ a.source ≠ b.target ∧
        a.target ≠ b.source ∧ a.target ≠ b.target ∧
        |(a.sx - a.tx) * (b.sy - b.ty) - (a.sy - a.ty) * (b.sx - b.tx)| > 1 / 10000 ∧
        ∃ s t : ℚ, 0 ≤ s ∧ s ≤ 1 ∧ 0 ≤ t ∧ t ≤ 1 ∧
          a.sx + s * (a.tx - a.sx) = b.sx + t * (b.tx - b.sx) ∧
          a.sy + s * (a.ty - a.sy) = b.sy + t * (b.ty - b.sy) ∧
          px = a.sx + s * (a.tx - a.sx) ∧ py = a.sy + s * (a.ty - a.sy)) ∧
    (∀ s t : ℚ, 0 < s → s < 1 → 0 < t → t < 1 →
      a.sx + s * (a.tx - a.sx) = b.sx + t * (b.tx - b.sx) →
      a.sy + s * (a.ty - a.sy) = b.sy + t * (b.ty - b.sy) →
      a.source ≠ b.source → a.source ≠ b.target →
      a.target ≠ b.source → a.target ≠ b.target →
      |(a.sx - a.tx) * (b.sy - b.ty) - (a.sy - a.ty) * (b.sx - b.tx)| > 1 / 10000 →
      crossPair a b = some (a.source, a.target, b.source, b.target,
        a.sx + s * (a.tx - a.sx), a.sy + s * (a.ty - a.sy))) := by
  refine ⟨?_, ?_, ?_⟩
  · simp only [check_arrow_crossings, orderedPairs, List.map_cons, List.map_nil,
      List.filterMap_append, List.filterMap_nil, List.filterMap_cons, List.append_nil]
    cases h : crossPair a b <;> simp [h]
  · intro nm1 nm2 nm3 nm4 px py h
    by_cases hnm : a.source = b.source ∨ a.source = b.target ∨
        a.target = b.source ∨ a.target = b.target
    · simp [crossPair, hnm] at h
    by_cases hseg : segments_intersect a.sx a.sy a.tx a.ty b.sx b.sy b.tx b.ty = true
    case neg => simp [crossPair, hnm, hseg] at h
    by_cases habs : |(a.sx - a.tx) * (b.sy - b.ty) - (a.sy - a.ty) * (b.sx - b.tx)| > 1 / 10000
    case neg =>
      simp only [crossPair] at h
      rw [if_neg hnm, if_pos hseg, if_neg habs] at h
      exact Option.noConfusion h
    have hn1 : a.source ≠ b.source := fun hh => hnm (Or.inl hh)
    have hn2 : a.source ≠ b.target := fun hh => hnm (Or.inr (Or.inl hh))
    have hn3 : a.target ≠ b.source := fun hh => hnm (Or.inr (Or.inr (Or.inl hh)))
    have hn4 : a.target ≠ b.target := fun hh => hnm (Or.inr (Or.inr (Or.inr hh)))
    simp only [crossPair] at h
    rw [if_neg hnm, if_pos hseg, if_pos habs] at h
    simp only [Option.some.injEq, Prod.mk.injEq] at h
    obtain ⟨h1, h2, h3, h4, hpx, hpy⟩ := h
    have hD : (a.sx - a.tx) * (b.sy - b.ty) - (a.sy - a.ty) * (b.sx - b.tx) ≠ 0 := by
      intro h0
      rw [h0] at habs
      norm_num at habs
    obtain ⟨s, t, hs0, hs1, ht0, ht1, hpx', hpy', hsval⟩ :=
      crossing_param_of_intersect a.sx a.sy a.tx a.ty b.sx b.sy b.tx b.ty hseg hD
    refine ⟨h1.symm, h2.symm, h3.symm, h4.symm, hn1, hn2, hn3, hn4, habs,
      s, t, hs0, hs1, ht0, ht1, hpx', hpy', ?_, ?_⟩
    · rw [hsval]; exact hpx.symm
    · rw [hsval]; exact hpy.symm
  · intro s t hs0 hs1 ht0 ht1 hx hy hn1 hn2 hn3 hn4 habs
    have hD : (a.sx - a.tx) * (b.sy - b.ty) - (a.sy - a.ty) * (b.sx - b.tx) ≠ 0 := by
      intro h0
      rw [h0] at habs
      norm_num at habs
    obtain ⟨hseg, hsval⟩ :=
      intersect_of_interior_crossing a.sx a.sy a.tx a.ty b.sx b.sy b.tx b.ty s t
        hs0 hs1 ht0 ht1 hD hx hy
    have hnm : ¬(a.source = b.source ∨ a.source = b.target ∨
        a.target = b.source ∨ a.target = b.target) := by
      rintro (hh | hh | hh | hh)
      exacts [hn1 hh, hn2 hh, hn3 hh, hn4 hh]
    simp only [crossPair]
    rw [if_neg hnm, if_pos hseg, if_pos habs, hsval]

/-- Witness: the arrows `A(0,0)->B(2,2)` and `C(0,2)->D(2,0)` cross at
`(1, 1)` with parameters `1/2`, and the pair is reported there. -/
theorem C7_witness :
    crossPair ⟨"A", 0, 0, "B", 2, 2⟩ ⟨"C", 0, 2, "D", 2, 0⟩ =
      some ("A", "B", "C", "D", 1, 1) := by
  have h := (C7_crossing_pair_characterization ⟨"A", 0, 0, "B", 2, 2⟩
      ⟨"C", 0, 2, "D", 2, 0⟩).2.2 (1/2) (1/2)
      (by norm_num) (by norm_num) (by norm_num) (by norm_num)
      (by norm_num) (by norm_num) (by simp) (by simp) (by simp) (by simp)
      (by norm_num [abs_of_nonpos])
  norm_num at h
  exact h

/-- The pair `A(0,-1)->B(0,0)` / `C(1,0)->D(-1,0)` is reported at `(0, 0)`
although every parametric solution has `s = 1`: the code reports a touch at
an arrow endpoint, refuting the claim's strictly-interior-only wording. -/
theorem C7_counterexample :
    check_arrow_crossings c7arrows = [("A", "B", "C", "D", 0, 0)] ∧
    (∀ s t : ℚ,
      (0 : ℚ) + s * (0 - 0) = 1 + t * (-1 - 1) →
      (-1 : ℚ) + s * (0 - -1) = 0 + t * (0 - 0) →
      s = 1) := by
  constructor
  · simp [check_arrow_crossings, c7arrows, orderedPairs, crossPair,
      segments_intersect, ccw, filterMap_cons_toList, abs_of_nonneg]
    norm_num
  · intro s t hx hy
    linarith [hy]

end LatexDiagrams
